import Mathlib

/-!
Shallow embedding of the awkward-1.0 leaf array type `NumpyArray`
(`src/libawkward/array/NumpyArray.cpp`) and of the operations named by the
specification: construction, indexing (`getitem_at`, the by-strides slice
resolution), contiguity normalization (`iscontiguous`, `contiguous`,
`contiguous_next`), the merge/promotion engine (`mergeable`'s dtype lattice and
`merge`), segmented reduce (`reduce_next`) and segmented sort (`sort_next`).

Buffers are modelled at the byte level (`List Nat`, one entry per byte), shapes
and strides as `List Int` (the source's `ssize_t` vectors), and every C++
`throw` as an `Except` error value classified by the specification's error
taxonomy (ShapeError / IndexError / TypeError / NotImplemented).  The embedding
covers identity-free arrays (`identities_ == nullptr` in the source); the
`Identities` side channel is orthogonal to every property treated here.

Compute kernels that live outside `src/` (the `cpu-kernels` library) are
modelled from the spec and marked as such in their doc comments.
-/

namespace Awkward

/-- Element dtypes of a NumpyArray (the members of `util::dtype` that
`NumpyArray::merge` and friends dispatch on; the commented-out
`datetime64`/`timedelta64` members are excluded, as in the source). -/
inductive Dtype
  | boolean
  | int8 | int16 | int32 | int64
  | uint8 | uint16 | uint32 | uint64
  | float16 | float32 | float64 | float128
  | complex64 | complex128 | complex256
  deriving DecidableEq, Fintype

/-- Modelled from the spec: `util::is_complex` (libawkward/util.cpp, outside
`src/`) — whether a dtype is one of the three complex dtypes. -/
def is_complex : Dtype → Bool
  | .complex64 | .complex128 | .complex256 => true
  | _ => false

/-- Modelled from the spec: `util::is_signed` (libawkward/util.cpp, outside
`src/`) — whether a dtype is a signed integer. -/
def is_signed : Dtype → Bool
  | .int8 | .int16 | .int32 | .int64 => true
  | _ => false

/-- Modelled from the spec: `util::dtype_to_itemsize` (libawkward/util.cpp,
outside `src/`) — the NumPy item size in bytes of each dtype. -/
def dtype_to_itemsize : Dtype → Int
  | .boolean => 1
  | .int8 => 1
  | .int16 => 2
  | .int32 => 4
  | .int64 => 8
  | .uint8 => 1
  | .uint16 => 2
  | .uint32 => 4
  | .uint64 => 8
  | .float16 => 2
  | .float32 => 4
  | .float64 => 8
  | .float128 => 16
  | .complex64 => 8
  | .complex128 => 16
  | .complex256 => 32

/-- Error taxonomy of the spec (§7).  Each C++ `throw std::invalid_argument` /
`std::runtime_error` / kernel `failure(...)` in the modelled code is mapped to
the class the spec assigns to that failure, with the source's message. -/
inductive AwkwardError
  | shapeError (msg : String)
  | indexError (msg : String)
  | typeError (msg : String)
  | notImplemented (msg : String)
  deriving DecidableEq

/-- The `kSliceNone` sentinel (`kMaxInt64 + 1 = 2^63 - 1`, common.h) marking an
absent `start`/`stop`/`step` in a `SliceRange`. -/
def sliceNone : Int := 9223372036854775807

/-- The NumpyArray view: a byte buffer (`ptr_`, one `Nat` per byte) plus the
shape/strides/byteoffset/itemsize bookkeeping and the dtype and parameters of
`NumpyArray`'s fields (NumpyArray.cpp lines 258-283). -/
structure NumpyArray where
  buffer : List Nat
  shape : List Int
  strides : List Int
  byteoffset : Int
  itemsize : Int
  dtype : Dtype
  parameters : List (String × String)
  deriving DecidableEq

/-- The checked constructor `NumpyArray::NumpyArray` (lines 258-283): it
refuses, with the spec's ShapeError, a shape and a strides vector of different
lengths, and otherwise stores the fields unchanged. -/
def NumpyArray.make (buffer : List Nat) (shape strides : List Int)
    (byteoffset itemsize : Int) (dtype : Dtype)
    (parameters : List (String × String)) : Except AwkwardError NumpyArray :=
  if shape.length ≠ strides.length then
    .error (.shapeError ("len(shape) must be equal to len(strides)"))
  else
    .ok ⟨buffer, shape, strides, byteoffset, itemsize, dtype, parameters⟩

/-- `NumpyArray::ndim` (lines 380-383): the number of dimensions. -/
def NumpyArray.ndim (v : NumpyArray) : Int := v.shape.length

/-- `NumpyArray::isscalar` (Content.h / lines 507-510): zero dimensions. -/
def NumpyArray.isscalar (v : NumpyArray) : Bool := v.ndim == 0

/-- `NumpyArray::isempty` (lines 390-398): true iff some extent is zero
(false for a scalar, as the source comment notes). -/
def NumpyArray.isempty (v : NumpyArray) : Bool :=
  v.shape.any (fun x => x == 0)

/-- `NumpyArray::length` (lines 935-943): −1 for a scalar, else the leading
extent. -/
def NumpyArray.length (v : NumpyArray) : Int :=
  if v.isscalar then -1 else v.shape.headI

/-- The accumulator scan of `NumpyArray::iscontiguous` (lines 3723-3731) over
(extent, stride) pairs listed from the innermost dimension outwards: `x` starts
at `itemsize_` and is multiplied by each extent after its stride is checked. -/
def contigFrom (x : Int) : List (Int × Int) → Bool
  | [] => true
  | (e, s) :: rest => x == s && contigFrom (x * e) rest

/-- `NumpyArray::iscontiguous` (lines 3723-3731): scans dimensions from
innermost to outermost, requiring each stride to equal `itemsize_` times the
product of all strictly-inner extents.  True for a scalar. -/
def NumpyArray.iscontiguous (v : NumpyArray) : Bool :=
  contigFrom v.itemsize ((v.shape.zip v.strides).reverse)

/-- `NumpyArray::getitem_at_nowrap` (lines 1033-1057): advance the byte offset
by `strides_[0] * at` and drop the leading dimension. -/
def NumpyArray.getitem_at_nowrap (v : NumpyArray) (i : Int) : NumpyArray :=
  { v with byteoffset := v.byteoffset + v.strides.headI * i,
           shape := v.shape.tail, strides := v.strides.tail }

/-- `NumpyArray::getitem_at` (lines 1018-1031): wrap a negative index by adding
the leading extent, raise the kernel failure "index out of range" (an
IndexError in the spec's taxonomy) when the regularized index is outside
`[0, shape_[0])`, else defer to `getitem_at_nowrap`. -/
def NumpyArray.getitem_at (v : NumpyArray) (i : Int) : Except AwkwardError NumpyArray :=
  let regular_at := if i < 0 then i + v.shape.headI else i
  if regular_at < 0 ∨ regular_at ≥ v.shape.headI then
    .error (.indexError ("index out of range"))
  else
    .ok (v.getitem_at_nowrap regular_at)

/-- Product of a list of extents (used to state packed row-major strides). -/
def listProd (xs : List Int) : Int := xs.foldr (fun a b => a * b) 1

/-- The packed row-major strides for a given item size and shape: stride `j`
is `m` times the product of all extents strictly inside dimension `j`.  This is
the stride vector `iscontiguous` accepts and the one the buffer-allocating
algorithms construct. -/
def canonStrides (m : Int) : List Int → List Int
  | [] => []
  | _ :: xs => m * listProd xs :: canonStrides m xs

/-- `flatten_shape` (lines 1374-1384): fuse the two leading extents; a
one-dimensional shape flattens to a scalar shape. -/
def flatten_shape : List Int → List Int
  | [] => []
  | [_] => []
  | a :: b :: rest => (a * b) :: rest

/-- `flatten_strides` (lines 1386-1394): drop the leading stride; a
one-dimensional strides vector flattens to an empty one. -/
def flatten_strides : List Int → List Int
  | [] => []
  | [_] => []
  | _ :: rest => rest

/-- Read one byte of a buffer at a (possibly out-of-range) byte position;
positions outside the buffer read as 0, standing in for the source's
unchecked raw-pointer access. -/
def byteAt (buffer : List Nat) (pos : Int) : Nat :=
  if 0 ≤ pos then buffer.getD pos.toNat 0 else 0

/-- Read `n` consecutive bytes of a buffer starting at byte position `pos`. -/
def readBytes (buffer : List Nat) (pos n : Int) : List Nat :=
  (List.range n.toNat).map (fun (j : Nat) => byteAt buffer (pos + (j : Int)))

/-- Byte deltas, in row-major order, of every element of a block described by
(extent, stride) pairs: the sums `Σ i_j * stride_j` over all multi-indices. -/
def positions : List (Int × Int) → List Int
  | [] => [0]
  | (e, s) :: rest =>
      (List.range e.toNat).flatMap (fun (i : Nat) => (positions rest).map (fun d => (i : Int) * s + d))

/-- Gather, element by element in row-major order, the `m`-byte items of a
strided block of `buffer` based at byte position `off`. -/
def gatherAll (buffer : List Nat) (off m : Int) (dims : List (Int × Int)) : List Nat :=
  (positions dims).flatMap (fun d => readBytes buffer (off + d) m)

/-- Modelled from the spec: kernel `NumpyArray_contiguous_init_64`
(cpu-kernels, outside `src/`) — the initial byte-position map
`bytepos[i] = i * strides_[0]` for the leading dimension. -/
def contiguous_init (len stride : Int) : List Int :=
  (List.range len.toNat).map (fun (i : Nat) => (i : Int) * stride)

/-- Modelled from the spec: kernel `NumpyArray_contiguous_copy_64`
(cpu-kernels, outside `src/`) — the backend gather/copy that, for each entry of
the byte-position map, copies `stride` bytes from `byteoffset + pos` of the
source buffer into the packed output. -/
def contiguous_copy (buffer : List Nat) (stride byteoffset : Int)
    (bytepos : List Int) : List Nat :=
  bytepos.flatMap (fun pos => readBytes buffer (byteoffset + pos) stride)

/-- Modelled from the spec: kernel `NumpyArray_contiguous_next_64`
(cpu-kernels, outside `src/`) — refine the byte-position map one dimension
deeper: `nextbytepos[i*skip + j] = bytepos[i] + j*stride`. -/
def contiguous_next_kernel (bytepos : List Int) (skip stride : Int) : List Int :=
  bytepos.flatMap (fun pos => (List.range skip.toNat).map (fun (j : Nat) => pos + (j : Int) * stride))

/-- `NumpyArray::contiguous_next` (lines 3757-3840), with the depth of the
dimensional recursion made explicit as a fuel argument (the recursion depth is
bounded by `ndim`, which strictly decreases through `flatten_shape`): if the
view is already contiguous, gather whole `strides_[0]`-byte rows at the mapped
positions into a fresh packed buffer (byte offset 0); if one-dimensional,
gather single items; otherwise refine the byte-position map over the second
dimension, recurse on the flattened view, and rebuild the outer stride as
`shape_[1] * out.strides_[0]`.  The two fall-through cases returning `v` are
unreachable when the fuel equals `ndim`: a scalar is always contiguous. -/
def contiguous_next_go (fuel : Nat) (v : NumpyArray) (bytepos : List Int) : NumpyArray :=
  if v.iscontiguous then
    { v with buffer := contiguous_copy v.buffer v.strides.headI v.byteoffset bytepos,
             byteoffset := 0 }
  else
    match fuel, v.shape with
    | _, [] => v
    | _, [_] =>
      { v with buffer := contiguous_copy v.buffer v.itemsize v.byteoffset bytepos,
               strides := [v.itemsize], byteoffset := 0 }
    | 0, _ :: _ :: _ => v
    | fuel' + 1, _ :: b :: _ =>
      let next : NumpyArray :=
        { v with shape := flatten_shape v.shape, strides := flatten_strides v.strides }
      let nextbytepos := contiguous_next_kernel bytepos b (v.strides.getD 1 0)
      let out := contiguous_next_go fuel' next nextbytepos
      { out with shape := v.shape,
                 strides := b * out.strides.headI :: out.strides }

/-- `NumpyArray::contiguous_next` at its call sites: the recursion depth is
the view's dimensionality. -/
def NumpyArray.contiguous_next (v : NumpyArray) (bytepos : List Int) : NumpyArray :=
  contiguous_next_go v.shape.length v bytepos

/-- `NumpyArray::contiguous` (lines 3733-3755): a contiguous view is returned
as a field-for-field shallow copy; otherwise the initial byte-position map of
the leading dimension is built and `contiguous_next` does the packing. -/
def NumpyArray.contiguous (v : NumpyArray) : NumpyArray :=
  if v.iscontiguous then v
  else v.contiguous_next (contiguous_init v.shape.headI v.strides.headI)

/-- The modelled slice items: a closed union of the items the by-strides
resolution dispatches on (lines 3842-3877).  `Ellipsis` is resolved by
rewriting into `Range(:, :, 1)` items before these cases are reached and the
advanced/masked/jagged items leave the by-strides path, so `At`, `Range` and
`NewAxis` are the items that arrive here.  A `Range` stores the `kSliceNone`
sentinel for an absent bound, as `SliceRange` does. -/
inductive SliceItem
  | atIdx (i : Int)
  | range (start stop step : Int)
  | newaxis
  deriving DecidableEq

/-- Modelled from the spec: kernel `regularize_rangeslice` (cpu-kernels,
outside `src/`) — the half-open, sign-aware normalization of range bounds,
clamped to the extent, with the direction given by the sign of the step:
missing bounds default to the full extent in the travel direction, negative
bounds wrap by adding the extent, and for a negative step the clamp floor is
−1 (one before the first element) instead of 0. -/
def regularize_rangeslice (start stop : Int) (posstep hasstart hasstop : Bool)
    (len : Int) : Int × Int :=
  if posstep then
    let s0 := if !hasstart then 0 else if start < 0 then start + len else start
    let s1 := if s0 < 0 then 0 else s0
    let s2 := if s1 > len then len else s1
    let e0 := if !hasstop then len else if stop < 0 then stop + len else stop
    let e1 := if e0 < 0 then 0 else e0
    let e2 := if e1 > len then len else e1
    let e3 := if e2 < s2 then s2 else e2
    (s2, e3)
  else
    let s0 := if !hasstart then len - 1 else if start < 0 then start + len else start
    let s1 := if s0 < -1 then -1 else s0
    let s2 := if s1 > len - 1 then len - 1 else s1
    let e0 := if !hasstop then -1 else if stop < 0 then stop + len else stop
    let e1 := if e0 < -1 then -1 else e0
    let e2 := if e1 > len - 1 then len - 1 else e1
    let e3 := if e2 > s2 then s2 else e2
    (s2, e3)

/-- `NumpyArray::getitem_bystrides` (lines 3842-4037), with the head/tail
split of the C++ `Slice` represented as a head-cons list: the `nullptr` head
returns the view unchanged; `SliceAt` consumes dimension 1 by pure offset
arithmetic with negative-index wraparound and bounds checks; `SliceRange`
normalizes its bounds against `shape_[1]`, produces the extent
`d + (m != 0 ? 1 : 0)` from `|start − stop| / |step|`, and scales `strides_[1]`
by the step; `SliceNewAxis` inserts an extent-1 dimension reusing the
next-produced stride.  Dimension errors are the kernel failures
"too many dimensions in slice" (a ShapeError per the spec taxonomy) and
"index out of range" (IndexError). -/
def NumpyArray.getitem_bystrides (v : NumpyArray) :
    List SliceItem → Int → Except AwkwardError NumpyArray
  | [], _ => .ok v
  | .atIdx i :: tail, len =>
      if v.ndim < 2 then .error (.shapeError ("too many dimensions in slice"))
      else
        let i' := if i < 0 then i + v.shape.getD 1 0 else i
        if i' < 0 ∨ i' ≥ v.shape.getD 1 0 then
          .error (.indexError ("index out of range"))
        else
          let next : NumpyArray :=
            { v with shape := flatten_shape v.shape, strides := flatten_strides v.strides,
                     byteoffset := v.byteoffset + i' * v.strides.getD 1 0 }
          match next.getitem_bystrides tail len with
          | .error e => .error e
          | .ok out => .ok { out with shape := len :: out.shape.tail }
  | .range start stop step :: tail, len =>
      if v.ndim < 2 then .error (.shapeError ("too many dimensions in slice"))
      else
        let step' := if step = sliceNone then 1 else step
        let p := regularize_rangeslice start stop (decide (step' > 0))
                   (start ≠ sliceNone) (stop ≠ sliceNone) (v.shape.getD 1 0)
        let numer := |p.1 - p.2|
        let denom := |step'|
        let d := numer / denom
        let m := numer % denom
        let lenhead := d + (if m ≠ 0 then 1 else 0)
        let next : NumpyArray :=
          { v with shape := flatten_shape v.shape, strides := flatten_strides v.strides,
                   byteoffset := v.byteoffset + p.1 * v.strides.getD 1 0 }
        match next.getitem_bystrides tail (len * lenhead) with
        | .error e => .error e
        | .ok out =>
            .ok { out with shape := len :: lenhead :: out.shape.tail,
                           strides := v.strides.headI :: v.strides.getD 1 0 * step'
                                        :: out.strides.tail }
  | .newaxis :: tail, len =>
      match v.getitem_bystrides tail len with
      | .error e => .error e
      | .ok out => .ok { out with shape := len :: 1 :: out.shape.tail,
                                  strides := out.strides.headI :: out.strides }

/-- `NumpyArray::getitem` (lines 1122-1217) restricted to the modelled slice
items: slicing a scalar throws (a ShapeError per the spec's taxonomy); with no
advanced index and no identities the by-strides fast path wraps the view in a
length-1 leading dimension of stride `shape_[0] * strides_[0]`, resolves the
spec, and strips that dimension again. -/
def NumpyArray.getitem (v : NumpyArray) (items : List SliceItem) :
    Except AwkwardError NumpyArray :=
  if v.isscalar then .error (.shapeError ("cannot get-item on a scalar"))
  else
    let next : NumpyArray :=
      { v with shape := 1 :: v.shape,
               strides := v.shape.headI * v.strides.headI :: v.strides }
    match next.getitem_bystrides items 1 with
    | .error e => .error e
    | .ok out => .ok { out with shape := out.shape.tail, strides := out.strides.tail }

/-- Modelled from the spec: kernel `NumpyArray_getitem_next_null_64`
(cpu-kernels, outside `src/`) — the terminal gather of `carry`: for each carry
entry, copy the `strides_[0]`-byte row starting at `byteoffset + pos*strides_[0]`. -/
def carry_gather (buffer : List Nat) (stride byteoffset : Int)
    (carry : List Int) : List Nat :=
  carry.flatMap (fun pos => readBytes buffer (byteoffset + pos * stride) stride)

/-- `NumpyArray::carry` (lines 1235-1264): materialize a gathered buffer of
`carry.length` rows, keep the inner shape and the strides, and start the new
view at byte offset 0 of the fresh buffer. -/
def NumpyArray.carry (v : NumpyArray) (carry : List Int) : NumpyArray :=
  { v with buffer := carry_gather v.buffer v.strides.headI v.byteoffset carry,
           shape := (carry.length : Int) :: v.shape.tail,
           byteoffset := 0 }

/-- Byte delta of a multi-index against a strides vector: `Σ ix_j * strides_j`
(the offset arithmetic of `byteptr` and `tostring_as`-style element access). -/
def strideSum : List Int → List Int → Int
  | i :: is, s :: ss => i * s + strideSum is ss
  | _, _ => 0

/-- Row-major flat position of a multi-index within a shape. -/
def flatIndex : List Int → List Int → Int
  | i :: is, _ :: es => i * listProd es + flatIndex is es
  | _, _ => 0

/-- A multi-index is valid for a shape when it has the same rank and each
coordinate lies in `[0, extent)`. -/
def validIndex : List Int → List Int → Prop
  | [], [] => True
  | i :: is, e :: es => 0 ≤ i ∧ i < e ∧ validIndex is es
  | _, _ => False

/-- Validity of a multi-index is decidable (each case is a finite conjunction
of integer comparisons). -/
def validIndex_dec : ∀ (ix shape : List Int), Decidable (validIndex ix shape)
  | [], [] => .isTrue trivial
  | [], _ :: _ => .isFalse (fun h => h)
  | _ :: _, [] => .isFalse (fun h => h)
  | i :: is, e :: es =>
      letI : Decidable (validIndex is es) := validIndex_dec is es
      inferInstanceAs (Decidable (0 ≤ i ∧ i < e ∧ validIndex is es))

instance (ix shape : List Int) : Decidable (validIndex ix shape) :=
  validIndex_dec ix shape

/-- Reading one element through a view: the `itemsize` bytes at byte position
`byteoffset + Σ ix_j * strides_j` (the element access of §4.1's
`element_at`, generalized to a multi-index). -/
def NumpyArray.getelement (v : NumpyArray) (ix : List Int) : List Nat :=
  readBytes v.buffer (v.byteoffset + strideSum ix v.strides) v.itemsize

/-- `util::parameter_equals`-style lookup on a view's parameters
(`Content::parameter_equals`): the parameter exists and its JSON text equals
`value`. -/
def NumpyArray.parameter_equals (v : NumpyArray) (key value : String) : Bool :=
  match v.parameters.lookup key with
  | some s => s == value
  | none => false

/-- The `__array__` parameter key used by the byte/char fast path of `merge`. -/
def arrayParamKey : String := "__array__"

/-- The JSON text `"byte"` as stored in parameters. -/
def byteParamValue : String := "\"byte\""

/-- The JSON text `"char"` as stored in parameters. -/
def charParamValue : String := "\"char\""

/-- Whether a view is byte/char-tagged (lines 1595-1598). -/
def NumpyArray.is_bytechar (v : NumpyArray) : Bool :=
  v.parameter_equals arrayParamKey byteParamValue ||
  v.parameter_equals arrayParamKey charParamValue

/-- The dtype-promotion chain of `NumpyArray::merge` (lines 1617-1769),
rule for rule in source order; `none` is the final
`cannot merge Numpy format` TypeError branch (unreachable for the dtypes
modelled here, which the chain covers totally). -/
def merge_dtype (a b : Dtype) : Option Dtype :=
  if a = .complex256 ∨ b = .complex256 then some .complex256
  else if (a = .float128 ∧ is_complex b) ∨ (b = .float128 ∧ is_complex a) then
    some .complex256
  else if a = .complex128 ∨ b = .complex128 then some .complex128
  else if ((a = .float64 ∨ a = .uint64 ∨ a = .int64 ∨ a = .uint32 ∨ a = .int32) ∧
             is_complex b) ∨
          ((b = .float64 ∨ b = .uint64 ∨ b = .int64 ∨ b = .uint32 ∨ b = .int32) ∧
             is_complex a) then some .complex128
  else if a = .complex64 ∨ b = .complex64 then some .complex64
  else if a = .float128 ∨ b = .float128 then some .float128
  else if a = .float64 ∨ b = .float64 then some .float64
  else if (a = .float32 ∧ (b = .uint64 ∨ b = .int64 ∨ b = .uint32 ∨ b = .int32)) ∨
          (b = .float32 ∧ (a = .uint64 ∨ a = .int64 ∨ a = .uint32 ∨ a = .int32)) then
    some .float64
  else if a = .float32 ∨ b = .float32 then some .float32
  else if (a = .float16 ∧ (b = .uint64 ∨ b = .int64 ∨ b = .uint32 ∨ b = .int32)) ∨
          (b = .float16 ∧ (a = .uint64 ∨ a = .int64 ∨ a = .uint32 ∨ a = .int32)) then
    some .float64
  else if (a = .float16 ∧ (b = .uint16 ∨ b = .int16)) ∨
          (b = .float16 ∧ (a = .uint16 ∨ a = .int16)) then some .float32
  else if a = .float16 ∨ b = .float16 then some .float16
  else if (a = .uint64 ∧ is_signed b) ∨ (b = .uint64 ∧ is_signed a) then some .float64
  else if a = .uint64 ∨ b = .uint64 then some .uint64
  else if a = .int64 ∨ b = .int64 then some .int64
  else if (a = .uint32 ∧ is_signed b) ∨ (b = .uint32 ∧ is_signed a) then some .int64
  else if a = .uint32 ∨ b = .uint32 then some .uint32
  else if a = .int32 ∨ b = .int32 then some .int32
  else if (a = .uint16 ∧ is_signed b) ∨ (b = .uint16 ∧ is_signed a) then some .int32
  else if a = .uint16 ∨ b = .uint16 then some .uint16
  else if a = .int16 ∨ b = .int16 then some .int16
  else if (a = .uint8 ∧ is_signed b) ∨ (b = .uint8 ∧ is_signed a) then some .int16
  else if a = .uint8 ∨ b = .uint8 then some .uint8
  else if a = .int8 ∨ b = .int8 then some .int8
  else if a = .boolean ∧ b = .boolean then some .boolean
  else none

/-- The `FIXME ... not implemented` throws of the fill switch of `merge`
(lines 1804-2786): the whole target cases `float16`, `float128`, `complex64`,
`complex128`, `complex256` throw up front, and the `float32`/`float64` targets
throw when either operand is `float16`.  Returns the thrown message. -/
def merge_fill_error (target a b : Dtype) : Option String :=
  if target = .float16 then some ("FIXME: merge to float16 not implemented")
  else if target = .float128 then some ("FIXME: merge to float128 not implemented")
  else if target = .complex64 then some ("FIXME: merge to complex64 not implemented")
  else if target = .complex128 then some ("FIXME: merge to complex128 not implemented")
  else if target = .complex256 then some ("FIXME: merge to complex256 not implemented")
  else if (target = .float32 ∨ target = .float64) ∧ (a = .float16 ∨ b = .float16) then
    some ("FIXME: merge from float16 not implemented")
  else none

/-- The structural output of a completed merge: the dtype chosen by the
promotion chain and the shape/strides/byteoffset/itemsize of the view built at
lines 2788-2796 (or 2832-2842 for the byte/char fast path).  The freshly
filled buffer itself is written by the `NumpyArray_fill` kernel family
(cpu-kernels, outside `src/`); no property below depends on its contents. -/
structure MergeOut where
  shape : List Int
  strides : List Int
  byteoffset : Int
  itemsize : Int
  dtype : Dtype
  deriving DecidableEq

/-- Outcomes of `NumpyArray::merge` (lines 1533-2804) on the modelled operand
kinds: differing parameters delegate to `Content::merge_as_union` (outside
`src/`); an `EmptyArray` operand returns this array's shallow copy unchanged;
otherwise a merged view is produced. -/
inductive MergeResult
  | asUnion
  | shallowSelf (v : NumpyArray)
  | merged (out : MergeOut)
  deriving DecidableEq

/-- The non-self operand kinds of `merge` modelled here: a plain `NumpyArray`
or an `EmptyArray` carrying its parameters (lines 1543-1545). -/
inductive MergeOther
  | numpy (w : NumpyArray)
  | empty (parameters : List (String × String))
  deriving DecidableEq

/-- The main NumpyArray-with-NumpyArray path of `merge` (lines 1608-2797):
reject differing ranks, choose the promoted dtype, fuse the leading extents
while requiring every inner extent to match (the loop at lines 1773-1789,
whose inserted strides are exactly the packed row-major strides of the fused
shape), raise the `FIXME` not-implemented errors of the fill switch, and
otherwise return the new view's structure with byte offset 0. -/
def merge_numpy_main (v w : NumpyArray) : Except AwkwardError MergeResult :=
  if v.ndim ≠ w.ndim then
    .error (.shapeError ("cannot merge arrays with different shapes"))
  else
    match merge_dtype v.dtype w.dtype with
    | none => .error (.typeError ("cannot merge Numpy formats"))
    | some d =>
        match v.shape, w.shape with
        | a0 :: atail, b0 :: btail =>
            if atail ≠ btail then
              .error (.shapeError ("cannot merge arrays with different shapes"))
            else
              match merge_fill_error d v.dtype w.dtype with
              | some msg => .error (.notImplemented msg)
              | none =>
                  .ok (.merged { shape := (a0 + b0) :: atail,
                                 strides := canonStrides (dtype_to_itemsize d)
                                              ((a0 + b0) :: atail),
                                 byteoffset := 0,
                                 itemsize := dtype_to_itemsize d,
                                 dtype := d })
        | _, _ => .error (.shapeError ("cannot merge arrays with different shapes"))

/-- `NumpyArray::merge` (lines 1533-2804) over the modelled operands, in
source order: the parameters check (line 1539) delegating to
`merge_as_union`; the `EmptyArray` dispatch (lines 1543-1545) returning the
shallow copy; the scalar rejection (lines 1591-1593, a ShapeError); the
byte/char fast path `merge_bytes` (lines 1595-1606 and 2806-2843)
concatenating two 1-byte-item one-dimensional arrays without promotion; then
the main promoted path. -/
def NumpyArray.merge (v : NumpyArray) (other : MergeOther) :
    Except AwkwardError MergeResult :=
  match other with
  | .empty p =>
      if v.parameters ≠ p then .ok .asUnion
      else .ok (.shallowSelf v)
  | .numpy w =>
      if v.parameters ≠ w.parameters then .ok .asUnion
      else if v.ndim = 0 then .error (.shapeError ("cannot merge Numpy scalars"))
      else if v.is_bytechar ∧ w.is_bytechar ∧ v.ndim = 1 ∧ w.ndim = 1 ∧
              v.itemsize = 1 ∧ w.itemsize = 1 then
        .ok (.merged { shape := [v.length + w.length], strides := [1],
                       byteoffset := 0, itemsize := 1, dtype := v.dtype })
      else merge_numpy_main v w

/-- The tree nodes a `reduce_next`/`sort_next` result can be wrapped in: the
plain leaf, the boolean-validity wrapper `ByteMaskedArray(mask, content,
valid_when)` and the fixed-size dimension wrapper `RegularArray(content,
size)`. -/
inductive Content
  | numpy (v : NumpyArray)
  | bytemasked (mask : List Int) (content : Content) (valid_when : Bool)
  | regular (content : Content) (size : Int)

/-- Modelled from the spec: `ByteMaskedArray` validity (sibling node type,
outside `src/`) — element `i` is valid iff `(mask[i] != 0) == valid_when`. -/
def bytemasked_valid (mask : List Int) (valid_when : Bool) (i : Nat) : Bool :=
  (mask.getD i 0 != 0) == valid_when

/-- Either the answer of a segmented kernel dispatch or the marker that the
view was first rewrapped into a `RegularArray` delegate (the
`toRegularArray()->...` branches, which recurse outside this leaf). -/
inductive StepResult
  | delegated
  | done (c : Content)

/-- A reducer as `reduce_next` consumes it: its per-dtype output dtype
(`Reducer::return_dtype`) and its typed per-group aggregation primitive
(`Reducer::apply_*`, cpu-kernels, outside `src/`), abstracted as one function
from (input dtype, buffer bytes, element offset, starts, parents, outlength)
to the output buffer bytes. -/
structure Reducer where
  return_dtype : Dtype → Dtype
  apply : Dtype → List Nat → Int → List Int → List Int → Int → List Nat

/-- The dtypes whose `reduce_next` dispatch is implemented (the fall-through
`FIXME` throws at lines 3099-3122 exclude `float16`, `float128` and the
complex dtypes). -/
def reduce_supported : Dtype → Bool
  | .float16 | .float128 | .complex64 | .complex128 | .complex256 => false
  | _ => true

/-- The `FIXME: reducers on ...` messages of lines 3099-3122. -/
def reduce_fixme_msg : Dtype → String
  | .float16 => "FIXME: reducers on float16"
  | .float128 => "FIXME: reducers on float128"
  | .complex64 => "FIXME: reducers on complex64"
  | .complex128 => "FIXME: reducers on complex128"
  | _ => "FIXME: reducers on complex256"

/-- Modelled from the spec: kernel `NumpyArray_reduce_mask_ByteMaskedArray_64`
(cpu-kernels, outside `src/`) — initialize every group's validity byte to 1 and
clear it to 0 for every group that some element's parent id names, so byte `i`
ends as 0 iff group `i` contains at least one element. -/
def reduce_mask (parents : List Int) (outlength : Int) : List Int :=
  (List.range outlength.toNat).map (fun (i : Nat) => if (i : Int) ∈ parents then 0 else 1)

/-- `NumpyArray::reduce_next` (lines 3013-3174): a scalar cannot be reduced
(ShapeError in the spec's taxonomy); a view that is not one-dimensional and
contiguous is rewrapped into a `RegularArray` and delegated; the unimplemented
dtypes raise their `FIXME` (NotImplemented); otherwise the reducer's primitive
runs at element offset `byteoffset_ / itemsize_`, the answer is a fresh view
`[outlength]` at byte offset 0 with the reducer's output dtype, and it is
wrapped in a valid-when-false `ByteMaskedArray` when `mask` is set and in an
extent-1 `RegularArray` when `keepdims` is set. -/
def NumpyArray.reduce_next (v : NumpyArray) (red : Reducer) (negaxis : Int)
    (starts parents : List Int) (outlength : Int) (mask keepdims : Bool) :
    Except AwkwardError StepResult :=
  if v.shape = [] then .error (.shapeError ("attempting to reduce a scalar"))
  else if v.shape.length ≠ 1 ∨ ¬v.iscontiguous then .ok .delegated
  else if ¬reduce_supported v.dtype then
    .error (.notImplemented (reduce_fixme_msg v.dtype))
  else
    let rdtype := red.return_dtype v.dtype
    let ritemsize := dtype_to_itemsize rdtype
    let base : NumpyArray :=
      { buffer := red.apply v.dtype v.buffer (v.byteoffset / v.itemsize)
                    starts parents outlength,
        shape := [outlength], strides := [ritemsize], byteoffset := 0,
        itemsize := ritemsize, dtype := rdtype, parameters := [] }
    let withMask : Content :=
      if mask then .bytemasked (reduce_mask parents outlength) (.numpy base) false
      else .numpy base
    let withKeep : Content :=
      if keepdims then .regular withMask 1 else withMask
    .ok (.done withKeep)

/-- The dtypes whose `sort_next` dispatch is implemented (the `FIXME` throws
at lines 3336-3365 exclude `float16`, `float128` and the complex dtypes). -/
def sort_supported : Dtype → Bool
  | .float16 | .float128 | .complex64 | .complex128 | .complex256 => false
  | _ => true

/-- The `FIXME: sort for ... not implemented` messages of lines 3336-3365. -/
def sort_fixme_msg : Dtype → String
  | .float16 => "FIXME: sort for float16 not implemented"
  | .float128 => "FIXME: sort for float128 not implemented"
  | .complex64 => "FIXME: sort for complex64 not implemented"
  | .complex128 => "FIXME: sort for complex128 not implemented"
  | _ => "FIXME: sort for complex256 not implemented"

/-- Insert into a list sorted by the comparator (helper of the modelled sort). -/
def insertLe (le : List Nat → List Nat → Bool) (x : List Nat) :
    List (List Nat) → List (List Nat)
  | [] => [x]
  | y :: ys => if le x y then x :: y :: ys else y :: insertLe le x ys

/-- Sort a list of items by the comparator (helper of the modelled sort). -/
def sortLe (le : List Nat → List Nat → Bool) (l : List (List Nat)) :
    List (List Nat) :=
  l.foldr (insertLe le) []

/-- The `itemsize`-byte element chunks of a buffer starting at element
`offset`, as the typed kernels address them. -/
def bufferElems (buffer : List Nat) (offset itemsize count : Int) : List (List Nat) :=
  (List.range count.toNat).map
    (fun (i : Nat) => readBytes buffer ((offset + (i : Int)) * itemsize) itemsize)

/-- Modelled from the spec: `NumpyArray::array_sort` (lines 4901-4949) and the
kernels `sorting_ranges` / `NumpyArray_sort` it calls (cpu-kernels, outside
`src/`) — derive the group runs from `parents` (maximal adjacent spans of
equal parent id) and sort each run independently, leaving run boundaries in
place.  The per-dtype ordering and the stable/unstable algorithm choice are
abstracted into the comparator `le`; no property below depends on the order
produced. -/
def array_sort_model (le : List Nat → List Nat → Bool) (parents : List Int)
    (elems : List (List Nat)) : List Nat :=
  (((parents.zip elems).splitBy (fun x y => x.1 == y.1)).flatMap
    (fun run => sortLe le (run.map Prod.snd))).flatMap id

/-- `NumpyArray::sort_next` (lines 3220-3392): a scalar cannot be sorted
(ShapeError in the spec's taxonomy); a view that is not one-dimensional and
contiguous is rewrapped into a `RegularArray` and delegated; the unimplemented
dtypes raise their `FIXME` (NotImplemented); otherwise the per-run sorted
buffer becomes a fresh view with the same shape, strides and parameters at
byte offset 0, wrapped in a `RegularArray` of size
`parents.length / starts.length` when `keepdims` is set. -/
def NumpyArray.sort_next (v : NumpyArray) (negaxis : Int)
    (starts parents : List Int) (outlength : Int)
    (ascending stable keepdims : Bool) (le : List Nat → List Nat → Bool) :
    Except AwkwardError StepResult :=
  if v.shape = [] then .error (.shapeError ("attempting to sort a scalar"))
  else if v.shape.length ≠ 1 ∨ ¬v.iscontiguous then .ok .delegated
  else if ¬sort_supported v.dtype then
    .error (.notImplemented (sort_fixme_msg v.dtype))
  else
    let elems := bufferElems v.buffer (v.byteoffset / v.itemsize) v.itemsize v.length
    let out : NumpyArray :=
      { v with buffer := array_sort_model le parents elems, byteoffset := 0 }
    if keepdims then
      .ok (.done (.regular (.numpy out) ((parents.length : Int) / (starts.length : Int))))
    else .ok (.done (.numpy out))

/-- All NumpyArray leaves of a reduce/sort answer sit at byte offset 0 of
their buffer. -/
def Content.leafOffsetsZero : Content → Prop
  | .numpy v => v.byteoffset = 0
  | .bytemasked _ c _ => c.leafOffsetsZero
  | .regular c _ => c.leafOffsetsZero

/-!  Theorems.  Each claim of the specification review is settled by exactly
one theorem below (with a witness instantiation where the theorem carries
hypotheses); the remaining lemmas are shared supporting facts. -/

/-- C10: for every scalar view (`ndim == 0`), the contiguity predicate
`iscontiguous` returns true and the emptiness predicate `isempty` returns
false, even though the scalar's logical `length` is −1. -/
theorem scalar_contiguous_nonempty (v : NumpyArray) (h : v.shape = []) :
    v.iscontiguous = true ∧ v.isempty = false ∧ v.length = -1 := by
  refine ⟨?_, ?_, ?_⟩ <;>
    simp [NumpyArray.iscontiguous, NumpyArray.isempty, NumpyArray.length,
          NumpyArray.isscalar, NumpyArray.ndim, contigFrom, h]

/-- Witness for C10 at a concrete scalar view. -/
theorem scalar_contiguous_nonempty_witness :
    (⟨[7], [], [], 0, 1, .int8, []⟩ : NumpyArray).shape = [] ∧
    (⟨[7], [], [], 0, 1, .int8, []⟩ : NumpyArray).iscontiguous = true ∧
    (⟨[7], [], [], 0, 1, .int8, []⟩ : NumpyArray).isempty = false ∧
    (⟨[7], [], [], 0, 1, .int8, []⟩ : NumpyArray).length = -1 :=
  ⟨rfl, scalar_contiguous_nonempty _ rfl⟩

/-- C6: constructing a view whose shape and strides sequences have different
lengths fails with a ShapeError, and every successfully constructed view
satisfies `len(shape) == len(strides)`. -/
theorem make_shape_strides_invariant (buffer : List Nat) (shape strides : List Int)
    (byteoffset itemsize : Int) (dtype : Dtype) (params : List (String × String)) :
    (shape.length ≠ strides.length →
      NumpyArray.make buffer shape strides byteoffset itemsize dtype params =
        .error (.shapeError ("len(shape) must be equal to len(strides)"))) ∧
    (∀ v, NumpyArray.make buffer shape strides byteoffset itemsize dtype params = .ok v →
      v.shape.length = v.strides.length) := by
  constructor
  · intro h
    simp [NumpyArray.make, h]
  · intro v hv
    by_cases h : shape.length = strides.length
    · simp only [NumpyArray.make, h, ne_eq, not_true_eq_false, if_false] at hv
      cases hv
      exact h
    · simp [NumpyArray.make, h] at hv

/-- Witness for C6: a mismatched construction fails, a matched one records
equal lengths. -/
theorem make_shape_strides_invariant_witness :
    ([(2 : Int)].length ≠ ([] : List Int).length ∧
      NumpyArray.make [1, 2] [2] [] 0 1 .int8 [] =
        .error (.shapeError ("len(shape) must be equal to len(strides)"))) ∧
    (NumpyArray.make [1, 2] [2] [1] 0 1 .int8 [] =
        .ok ⟨[1, 2], [2], [1], 0, 1, .int8, []⟩ ∧
      (⟨[1, 2], [2], [1], 0, 1, .int8, []⟩ : NumpyArray).shape.length =
        (⟨[1, 2], [2], [1], 0, 1, .int8, []⟩ : NumpyArray).strides.length) :=
  ⟨⟨by decide, (make_shape_strides_invariant [1, 2] [2] [] 0 1 .int8 []).1 (by decide)⟩,
   ⟨rfl, (make_shape_strides_invariant [1, 2] [2] [1] 0 1 .int8 []).2 _ rfl⟩⟩

/-- C5: on a view of leading extent `n ≥ 1`, `getitem_at (-1)` gives the same
element view as `getitem_at (n-1)` (negative indices wrap by adding `n`), and
any index with `at ≥ n` or `at + n < 0` raises IndexError. -/
theorem getitem_at_wrap_and_bounds (v : NumpyArray) (n : Int) (rest : List Int)
    (hs : v.shape = n :: rest) :
    (1 ≤ n → v.getitem_at (-1) = v.getitem_at (n - 1)) ∧
    (∀ i : Int, n ≤ i ∨ i + n < 0 →
      v.getitem_at i = .error (.indexError ("index out of range"))) := by
  constructor
  · intro hn
    simp only [NumpyArray.getitem_at, hs, List.headI]
    have h1 : (-1 : Int) < 0 := by norm_num
    have h2 : ¬(n - 1 < 0) := by omega
    rw [if_pos h1, if_neg h2]
    have : -1 + n = n - 1 := by ring
    rw [this]
  · intro i hi
    simp only [NumpyArray.getitem_at, hs, List.headI]
    split_ifs with h1 h2 h2 <;> first
      | rfl
      | omega

/-- Witness for C5 on a length-3 one-dimensional view: `getitem_at 10` raises
IndexError and `getitem_at (-1)` equals `getitem_at 2`. -/
theorem getitem_at_wrap_and_bounds_witness :
    (⟨[1, 2, 3], [3], [1], 0, 1, .int8, []⟩ : NumpyArray).shape = 3 :: [] ∧
    (⟨[1, 2, 3], [3], [1], 0, 1, .int8, []⟩ : NumpyArray).getitem_at 10 =
      .error (.indexError ("index out of range")) ∧
    (⟨[1, 2, 3], [3], [1], 0, 1, .int8, []⟩ : NumpyArray).getitem_at (-1) =
      (⟨[1, 2, 3], [3], [1], 0, 1, .int8, []⟩ : NumpyArray).getitem_at (3 - 1) :=
  ⟨rfl,
   (getitem_at_wrap_and_bounds _ 3 [] rfl).2 10 (by norm_num),
   (getitem_at_wrap_and_bounds _ 3 [] rfl).1 (by norm_num)⟩

/-- The promotion chain is a total function on the modelled dtypes: some rule
always fires. -/
theorem merge_dtype_total : ∀ a b : Dtype, (merge_dtype a b).isSome := by decide

/-- The promotion chain is commutative: every rule tests its two operands
symmetrically. -/
theorem merge_dtype_comm : ∀ a b : Dtype, merge_dtype a b = merge_dtype b a := by decide

/-- The fill switch's not-implemented condition and message are symmetric in
the two source dtypes. -/
theorem merge_fill_error_comm : ∀ d a b : Dtype,
    merge_fill_error d a b = merge_fill_error d b a := by decide

/-- Evaluation of `merge` on two plain (parameterless) one-dimensional
NumpyArrays: the byte/char fast path is skipped and the main path reduces to
the promotion chain, the fill-implementedness check, and the fused shape. -/
theorem merge_plain_eval (va vb : NumpyArray) (la lb : Int)
    (ha : va.shape = [la]) (hb : vb.shape = [lb])
    (hpa : va.parameters = []) (hpb : vb.parameters = []) :
    va.merge (.numpy vb) =
      match merge_dtype va.dtype vb.dtype with
      | none => .error (.typeError ("cannot merge Numpy formats"))
      | some d =>
          match merge_fill_error d va.dtype vb.dtype with
          | some msg => .error (.notImplemented msg)
          | none =>
              .ok (.merged { shape := [la + lb],
                             strides := canonStrides (dtype_to_itemsize d) [la + lb],
                             byteoffset := 0, itemsize := dtype_to_itemsize d,
                             dtype := d }) := by
  have hbc : va.is_bytechar = false := by
    simp [NumpyArray.is_bytechar, NumpyArray.parameter_equals, hpa]
  unfold NumpyArray.merge merge_numpy_main
  simp only [NumpyArray.ndim, ha, hb, hpa, hpb, hbc, List.length_cons,
             List.length_nil, Nat.cast_one, ne_eq, not_true_eq_false, if_false,
             one_ne_zero, Bool.false_eq_true, false_and, if_true, not_false_eq_true,
             ite_false, ite_true]
  norm_num

/-- Success form of `merge_plain_eval`: when the fill is implemented for the
promoted dtype, the merged view's structure. -/
theorem merge_plain_ok (va vb : NumpyArray) (la lb : Int) (d : Dtype)
    (ha : va.shape = [la]) (hb : vb.shape = [lb])
    (hpa : va.parameters = []) (hpb : vb.parameters = [])
    (hd : merge_dtype va.dtype vb.dtype = some d)
    (hf : merge_fill_error d va.dtype vb.dtype = none) :
    va.merge (.numpy vb) =
      .ok (.merged { shape := [la + lb],
                     strides := canonStrides (dtype_to_itemsize d) [la + lb],
                     byteoffset := 0, itemsize := dtype_to_itemsize d,
                     dtype := d }) := by
  rw [merge_plain_eval va vb la lb ha hb hpa hpb, hd]
  simp only [hf]

/-- Error form of `merge_plain_eval`: when the fill switch raises, the merge
raises its NotImplemented error. -/
theorem merge_plain_err (va vb : NumpyArray) (la lb : Int) (d : Dtype) (msg : String)
    (ha : va.shape = [la]) (hb : vb.shape = [lb])
    (hpa : va.parameters = []) (hpb : vb.parameters = [])
    (hd : merge_dtype va.dtype vb.dtype = some d)
    (hf : merge_fill_error d va.dtype vb.dtype = some msg) :
    va.merge (.numpy vb) = .error (.notImplemented msg) := by
  rw [merge_plain_eval va vb la lb ha hb hpa hpb, hd]
  simp only [hf]

/-- C2 counterexample: merging an 8-bit integer with a 64-bit complex selects
64-bit complex, not 128-bit complex, in the promotion chain. -/
theorem merge_dtype_int8_complex64_not_complex128 :
    merge_dtype .int8 .complex64 = some .complex64 ∧
    merge_dtype .int8 .complex64 ≠ some .complex128 := by decide

/-- C2 (amended): the promotion of an integer with a complex dtype, in both
operand orders: a complex256 operand wins outright; a complex128 operand gives
complex128; a complex64 operand gives complex128 only when the integer is 32
or 64 bits wide, and complex64 when it is 8 or 16 bits wide. -/
theorem merge_dtype_integer_complex (a b : Dtype)
    (hint : a = .int8 ∨ a = .int16 ∨ a = .int32 ∨ a = .int64 ∨
            a = .uint8 ∨ a = .uint16 ∨ a = .uint32 ∨ a = .uint64)
    (hcpx : b = .complex64 ∨ b = .complex128 ∨ b = .complex256) :
    merge_dtype a b = merge_dtype b a ∧
    merge_dtype a b =
      (if b = .complex256 then some .complex256
       else if b = .complex128 then some .complex128
       else if a = .int32 ∨ a = .uint32 ∨ a = .int64 ∨ a = .uint64 then
         some .complex128
       else some .complex64) := by
  rcases hint with rfl | rfl | rfl | rfl | rfl | rfl | rfl | rfl <;>
    rcases hcpx with rfl | rfl | rfl <;> decide

/-- Witness for C2's amended promotion rule at `int64` against `complex64`. -/
theorem merge_dtype_integer_complex_witness :
    merge_dtype .int64 .complex64 = merge_dtype .complex64 .int64 ∧
    merge_dtype .int64 .complex64 = some .complex128 := by
  have h := merge_dtype_integer_complex .int64 .complex64 (by decide) (by decide)
  exact ⟨h.1, h.2.trans (by decide)⟩

/-- C1 counterexample: the dtype pair (complex64, complex64) is in the
promotion table, yet merging two such one-dimensional arrays yields no merged
result at all — the fill switch raises its not-implemented error. -/
theorem merge_complex64_raises :
    (⟨[0, 0, 0, 0, 0, 0, 0, 0], [1], [8], 0, 8, .complex64, []⟩ : NumpyArray).merge
        (.numpy ⟨[1, 0, 0, 0, 0, 0, 0, 0], [1], [8], 0, 8, .complex64, []⟩) =
      .error (.notImplemented ("FIXME: merge to complex64 not implemented")) := by
  rfl

/-- C1 (amended): for two plain one-dimensional NumpyArrays of any dtypes in
the promotion table, the two merge orders behave identically: the promotion
chain itself is commutative; when one order succeeds so does the other, with
the same result dtype and with leading length the sum of the input leading
lengths; and when one order raises, the other raises the identical error. -/
theorem merge_dtype_commutes_and_length (va vb : NumpyArray) (la lb : Int)
    (ha : va.shape = [la]) (hb : vb.shape = [lb])
    (hpa : va.parameters = []) (hpb : vb.parameters = []) :
    (∀ a b : Dtype, merge_dtype a b = merge_dtype b a) ∧
    (∀ r, va.merge (.numpy vb) = .ok (.merged r) →
      ∃ r', vb.merge (.numpy va) = .ok (.merged r') ∧
        r'.dtype = r.dtype ∧ r.shape = [la + lb] ∧ r'.shape = [lb + la]) ∧
    (∀ e, va.merge (.numpy vb) = .error e → vb.merge (.numpy va) = .error e) := by
  obtain ⟨d, hd⟩ := Option.isSome_iff_exists.mp (merge_dtype_total va.dtype vb.dtype)
  have hd' : merge_dtype vb.dtype va.dtype = some d :=
    (merge_dtype_comm vb.dtype va.dtype).trans hd
  refine ⟨merge_dtype_comm, ?_, ?_⟩
  · intro r hr
    rcases hf : merge_fill_error d va.dtype vb.dtype with _ | msg
    · have hf' : merge_fill_error d vb.dtype va.dtype = none :=
        (merge_fill_error_comm d vb.dtype va.dtype).trans hf
      rw [merge_plain_ok va vb la lb d ha hb hpa hpb hd hf] at hr
      simp only [Except.ok.injEq, MergeResult.merged.injEq] at hr
      subst hr
      exact ⟨_, merge_plain_ok vb va lb la d hb ha hpb hpa hd' hf', rfl, rfl, rfl⟩
    · rw [merge_plain_err va vb la lb d msg ha hb hpa hpb hd hf] at hr
      cases hr
  · intro e he
    rcases hf : merge_fill_error d va.dtype vb.dtype with _ | msg
    · rw [merge_plain_ok va vb la lb d ha hb hpa hpb hd hf] at he
      cases he
    · have hf' : merge_fill_error d vb.dtype va.dtype = some msg :=
        (merge_fill_error_comm d vb.dtype va.dtype).trans hf
      rw [merge_plain_err va vb la lb d msg ha hb hpa hpb hd hf] at he
      rw [merge_plain_err vb va lb la d msg hb ha hpb hpa hd' hf']
      exact he.symm ▸ rfl

/-- Witness for C1's amended statement: `int32` merged with `float32` succeeds
in both orders with result dtype `float64` and leading length 3 + 2. -/
theorem merge_dtype_commutes_and_length_witness :
    (⟨List.replicate 12 0, [3], [4], 0, 4, .int32, []⟩ : NumpyArray).merge
        (.numpy ⟨List.replicate 8 0, [2], [4], 0, 4, .float32, []⟩) =
      .ok (.merged { shape := [5], strides := [8], byteoffset := 0,
                     itemsize := 8, dtype := .float64 }) ∧
    ∃ r', (⟨List.replicate 8 0, [2], [4], 0, 4, .float32, []⟩ : NumpyArray).merge
        (.numpy ⟨List.replicate 12 0, [3], [4], 0, 4, .int32, []⟩) =
      .ok (.merged r') ∧ r'.dtype = .float64 ∧ r'.shape = [2 + 3] := by
  have h := (merge_dtype_commutes_and_length
      (⟨List.replicate 12 0, [3], [4], 0, 4, .int32, []⟩ : NumpyArray)
      (⟨List.replicate 8 0, [2], [4], 0, 4, .float32, []⟩ : NumpyArray)
      3 2 rfl rfl rfl rfl).2.1
      { shape := [5], strides := [8], byteoffset := 0, itemsize := 8, dtype := .float64 }
      (by rfl)
  obtain ⟨r', hm, hd, _, hs⟩ := h
  exact ⟨by rfl, r', hm, hd.trans rfl, hs⟩

/-- C8 counterexample: merging a scalar with another array does not always
raise — an `EmptyArray` operand (with equal parameters) is dispatched at lines
1543-1545 before the scalar check and returns the scalar's shallow copy. -/
theorem merge_scalar_empty_no_error :
    (⟨[0], [], [], 0, 8, .float64, []⟩ : NumpyArray).merge (.empty []) =
      .ok (.shallowSelf ⟨[0], [], [], 0, 8, .float64, []⟩) := rfl

/-- C8 (amended): on a scalar view (`ndim == 0`), `getitem` with any slice
spec raises ShapeError, and `merge` with any other NumpyArray of equal
parameters raises ShapeError; an EmptyArray operand instead returns the scalar
unchanged and differing parameters delegate to `merge_as_union`. -/
theorem scalar_getitem_merge_errors (v : NumpyArray) (h : v.shape = []) :
    (∀ items : List SliceItem,
      v.getitem items = .error (.shapeError ("cannot get-item on a scalar"))) ∧
    (∀ w : NumpyArray, v.parameters = w.parameters →
      v.merge (.numpy w) = .error (.shapeError ("cannot merge Numpy scalars"))) := by
  constructor
  · intro items
    simp [NumpyArray.getitem, NumpyArray.isscalar, NumpyArray.ndim, h]
  · intro w hp
    simp [NumpyArray.merge, NumpyArray.ndim, h, hp]

/-- Witness for C8's amended statement at a concrete scalar. -/
theorem scalar_getitem_merge_errors_witness :
    (⟨[0], [], [], 0, 8, .float64, []⟩ : NumpyArray).shape = [] ∧
    (⟨[0], [], [], 0, 8, .float64, []⟩ : NumpyArray).getitem [.atIdx 0] =
      .error (.shapeError ("cannot get-item on a scalar")) ∧
    (⟨[0], [], [], 0, 8, .float64, []⟩ : NumpyArray).merge
        (.numpy ⟨[1], [1], [1], 0, 1, .int8, []⟩) =
      .error (.shapeError ("cannot merge Numpy scalars")) :=
  ⟨rfl,
   (scalar_getitem_merge_errors _ rfl).1 [.atIdx 0],
   (scalar_getitem_merge_errors _ rfl).2 _ rfl⟩

/-- A view with an empty shape is contiguous (helper). -/
theorem iscontiguous_of_shape_nil (v : NumpyArray) (h : v.shape = []) :
    v.iscontiguous = true := by
  simp [NumpyArray.iscontiguous, h, contigFrom]

/-- With fuel equal to the dimensionality, the packing recursion always lands
in a branch that rebases the view at byte offset 0 (helper for C9). -/
theorem contiguous_next_go_byteoffset :
    ∀ (fuel : Nat) (v : NumpyArray) (bp : List Int),
      v.shape ≠ [] → fuel = v.shape.length →
      (contiguous_next_go fuel v bp).byteoffset = 0 := by
  intro fuel
  induction fuel with
  | zero =>
      intro v bp hne hflen
      exact absurd (List.length_eq_zero.mp hflen.symm) hne
  | succ n ih =>
      intro v bp hne hflen
      by_cases hc : v.iscontiguous
      · rw [contiguous_next_go.eq_def]
        simp [hc]
      · rcases hs : v.shape with _ | ⟨a, _ | ⟨b, rest⟩⟩
        · exact absurd hs hne
        · rw [contiguous_next_go.eq_def]
          simp [hc, hs]
        · rw [hs] at hflen
          simp only [List.length_cons] at hflen
          rw [contiguous_next_go.eq_def]
          simp only [hc, Bool.false_eq_true, if_false, hs]
          refine ih _ _ ?_ ?_
          · simp [hs, flatten_shape]
          · simp [hs, flatten_shape]
            omega

/-- Any merged view produced by the main promoted path starts at byte offset 0
(helper for C9). -/
theorem merge_numpy_main_byteoffset (va w : NumpyArray) (r : MergeOut)
    (h : merge_numpy_main va w = .ok (.merged r)) : r.byteoffset = 0 := by
  unfold merge_numpy_main at h
  by_cases h1 : va.ndim ≠ w.ndim
  · rw [if_pos h1] at h
    cases h
  · rw [if_neg h1] at h
    rcases hd : merge_dtype va.dtype w.dtype with _ | d
    · simp [hd] at h
    · simp only [hd] at h
      rcases hsa : va.shape with _ | ⟨a0, atail⟩ <;>
        rcases hsb : w.shape with _ | ⟨b0, btail⟩ <;>
        simp only [hsa, hsb] at h
      · cases h
      · cases h
      · cases h
      · by_cases h5 : atail ≠ btail
        · rw [if_pos h5] at h
          cases h
        · rw [if_neg h5] at h
          rcases hf : merge_fill_error d va.dtype w.dtype with _ | msg <;>
            simp only [hf] at h
          · simp only [Except.ok.injEq, MergeResult.merged.injEq] at h
            exact h ▸ rfl
          · cases h

/-- C9: every view freshly materialized by a buffer-allocating operation —
`carry`, the non-trivial branch of `contiguous`, a completed `merge`, and the
leaf views inside a completed `reduce_next` or `sort_next` — has byte offset
0, starting at the beginning of its newly allocated buffer. -/
theorem fresh_views_start_at_offset_zero :
    (∀ (v : NumpyArray) (idx : List Int), (v.carry idx).byteoffset = 0) ∧
    (∀ v : NumpyArray, v.iscontiguous = false → v.contiguous.byteoffset = 0) ∧
    (∀ (va : NumpyArray) (other : MergeOther) (r : MergeOut),
      va.merge other = .ok (.merged r) → r.byteoffset = 0) ∧
    (∀ (v : NumpyArray) (red : Reducer) (negaxis : Int) (starts parents : List Int)
       (outlength : Int) (mask keepdims : Bool) (c : Content),
      v.reduce_next red negaxis starts parents outlength mask keepdims =
        .ok (.done c) → c.leafOffsetsZero) ∧
    (∀ (v : NumpyArray) (negaxis : Int) (starts parents : List Int)
       (outlength : Int) (ascending stable keepdims : Bool)
       (le : List Nat → List Nat → Bool) (c : Content),
      v.sort_next negaxis starts parents outlength ascending stable keepdims le =
        .ok (.done c) → c.leafOffsetsZero) := by
  refine ⟨fun v idx => rfl, ?_, ?_, ?_, ?_⟩
  · intro v h
    have hne : v.shape ≠ [] := fun hs => by
      rw [iscontiguous_of_shape_nil v hs] at h
      cases h
    rw [NumpyArray.contiguous, if_neg (by simp [h])]
    exact contiguous_next_go_byteoffset _ _ _ hne rfl
  · intro va other r h
    rcases other with w | p
    · simp only [NumpyArray.merge] at h
      split_ifs at h <;>
        first
          | exact merge_numpy_main_byteoffset va w r h
          | (simp only [Except.ok.injEq, MergeResult.merged.injEq] at h
             exact h ▸ rfl)
          | simp at h
    · simp only [NumpyArray.merge] at h
      split_ifs at h <;> simp at h
  · intro v red negaxis starts parents outlength mask keepdims c h
    unfold NumpyArray.reduce_next at h
    split_ifs at h <;>
      first
        | (simp only [Except.ok.injEq, StepResult.done.injEq] at h
           subst h
           simp [Content.leafOffsetsZero])
        | simp at h
  · intro v negaxis starts parents outlength ascending stable keepdims le c h
    unfold NumpyArray.sort_next at h
    split_ifs at h <;>
      first
        | (simp only [Except.ok.injEq, StepResult.done.injEq] at h
           subst h
           simp [Content.leafOffsetsZero])
        | simp at h

/-- Witness for C9: each buffer-allocating operation, run on a concrete view,
lands at byte offset 0. -/
theorem fresh_views_start_at_offset_zero_witness :
    ((⟨[1, 2, 3, 4], [2, 2], [2, 1], 0, 1, .int8, []⟩ : NumpyArray).carry
        [1, 0]).byteoffset = 0 ∧
    ((⟨[1, 2, 3, 4], [2, 2], [1, 2], 0, 1, .int8, []⟩ : NumpyArray).iscontiguous = false ∧
      (⟨[1, 2, 3, 4], [2, 2], [1, 2], 0, 1, .int8, []⟩ : NumpyArray).contiguous.byteoffset = 0) ∧
    ((⟨List.replicate 12 0, [3], [4], 0, 4, .int32, []⟩ : NumpyArray).merge
        (.numpy ⟨List.replicate 8 0, [2], [4], 0, 4, .float32, []⟩) =
      .ok (.merged { shape := [5], strides := [8], byteoffset := 0,
                     itemsize := 8, dtype := .float64 }) ∧
      ({ shape := [5], strides := [8], byteoffset := 0, itemsize := 8,
         dtype := Dtype.float64 } : MergeOut).byteoffset = 0) ∧
    ((⟨[10, 20, 30], [3], [1], 0, 1, .int8, []⟩ : NumpyArray).reduce_next
        ⟨fun d => d, fun _ _ _ _ _ _ => [0]⟩ 1 [0] [0, 0, 0] 1 false false =
      .ok (.done (.numpy ⟨[0], [1], [1], 0, 1, .int8, []⟩)) ∧
      Content.leafOffsetsZero (.numpy ⟨[0], [1], [1], 0, 1, .int8, []⟩)) ∧
    ((⟨[10, 20, 30], [3], [1], 0, 1, .int8, []⟩ : NumpyArray).sort_next
        1 [0] [0, 0, 0] 1 true true false (fun _ _ => true) =
      .ok (.done (.numpy ⟨[10, 20, 30], [3], [1], 0, 1, .int8, []⟩)) ∧
      Content.leafOffsetsZero (.numpy ⟨[10, 20, 30], [3], [1], 0, 1, .int8, []⟩)) :=
  ⟨fresh_views_start_at_offset_zero.1 _ [1, 0],
   ⟨by rfl, fresh_views_start_at_offset_zero.2.1 _ (by rfl)⟩,
   ⟨by rfl,
    fresh_views_start_at_offset_zero.2.2.1
      ⟨List.replicate 12 0, [3], [4], 0, 4, .int32, []⟩
      (.numpy ⟨List.replicate 8 0, [2], [4], 0, 4, .float32, []⟩)
      { shape := [5], strides := [8], byteoffset := 0, itemsize := 8,
        dtype := .float64 } (by rfl)⟩,
   ⟨by rfl,
    fresh_views_start_at_offset_zero.2.2.2.1
      ⟨[10, 20, 30], [3], [1], 0, 1, .int8, []⟩
      ⟨fun d => d, fun _ _ _ _ _ _ => [0]⟩ 1 [0] [0, 0, 0] 1 false false
      (.numpy ⟨[0], [1], [1], 0, 1, .int8, []⟩) (by rfl)⟩,
   ⟨by rfl,
    fresh_views_start_at_offset_zero.2.2.2.2
      ⟨[10, 20, 30], [3], [1], 0, 1, .int8, []⟩
      1 [0] [0, 0, 0] 1 true true false (fun _ _ => true)
      (.numpy ⟨[10, 20, 30], [3], [1], 0, 1, .int8, []⟩) (by rfl)⟩⟩

/-- C7: on a one-dimensional contiguous view of a supported dtype,
`reduce_next` wraps the plain result in a valid-when-false `ByteMaskedArray`
when `mask` is set, whose validity bytes flag exactly the empty groups (no
element's parent id names them) as invalid, and wraps one extra extent-1
dimension when `keepdims` is set. -/
theorem reduce_next_mask_keepdims (v : NumpyArray) (red : Reducer) (negaxis : Int)
    (starts parents : List Int) (outlength : Int) (mask keepdims : Bool)
    (h1 : v.shape.length = 1) (h2 : v.iscontiguous = true)
    (h3 : reduce_supported v.dtype = true) :
    (∃ base : NumpyArray,
      v.reduce_next red negaxis starts parents outlength mask keepdims =
        .ok (.done
          ((if keepdims then (fun c => Content.regular c 1) else id)
            ((if mask then
                (fun c => Content.bytemasked (reduce_mask parents outlength) c false)
              else id) (.numpy base))))) ∧
    (reduce_mask parents outlength).length = outlength.toNat ∧
    (∀ i : Nat, i < outlength.toNat →
      (bytemasked_valid (reduce_mask parents outlength) false i = false ↔
        ¬ ((i : Int) ∈ parents))) := by
  have hne : v.shape ≠ [] := by
    intro h
    rw [h] at h1
    exact absurd h1 (by simp)
  refine ⟨?_, by simp only [reduce_mask, List.length_map, List.length_range], ?_⟩
  · refine ⟨{ buffer := red.apply v.dtype v.buffer (v.byteoffset / v.itemsize)
                          starts parents outlength,
              shape := [outlength],
              strides := [dtype_to_itemsize (red.return_dtype v.dtype)],
              byteoffset := 0,
              itemsize := dtype_to_itemsize (red.return_dtype v.dtype),
              dtype := red.return_dtype v.dtype, parameters := [] }, ?_⟩
    unfold NumpyArray.reduce_next
    rw [if_neg hne, if_neg (by simp [h1, h2]), if_neg (by simp [h3])]
    rcases mask <;> rcases keepdims <;> simp
  · intro i hi
    have hget : (reduce_mask parents outlength).getD i 0 =
        (if (i : Int) ∈ parents then 0 else 1) := by
      unfold reduce_mask
      rw [List.getD_eq_getElem _ _
            (by simpa only [List.length_map, List.length_range] using hi),
          List.getElem_map, List.getElem_range]
    unfold bytemasked_valid
    rw [hget]
    by_cases hmem : (i : Int) ∈ parents <;> simp [hmem]

/-- Witness for C7: summing data `[10, 20, 30]` with groups `[0, 0, 0]` of 2
requested output groups, with `mask` and `keepdims` set, wraps the result in
the byte mask `[0, 1]` (group 1 is empty, hence invalid) and an extent-1
regular dimension. -/
theorem reduce_next_mask_keepdims_witness :
    (⟨[10, 20, 30], [3], [1], 0, 1, .int8, []⟩ : NumpyArray).reduce_next
        ⟨fun d => d, fun _ _ _ _ _ _ => [60, 0]⟩ 1 [0] [0, 0, 0] 2 true true =
      .ok (.done (.regular
        (.bytemasked (reduce_mask [0, 0, 0] 2)
          (.numpy ⟨[60, 0], [2], [1], 0, 1, .int8, []⟩) false) 1)) ∧
    reduce_mask [0, 0, 0] 2 = [0, 1] ∧
    (bytemasked_valid (reduce_mask [0, 0, 0] 2) false 0 = false ↔ ¬ ((0 : Int) ∈ [0, 0, 0])) ∧
    (bytemasked_valid (reduce_mask [0, 0, 0] 2) false 1 = false ↔ ¬ ((1 : Int) ∈ [0, 0, 0])) := by
  have h := reduce_next_mask_keepdims
      (⟨[10, 20, 30], [3], [1], 0, 1, .int8, []⟩ : NumpyArray)
      ⟨fun d => d, fun _ _ _ _ _ _ => [60, 0]⟩ 1 [0] [0, 0, 0] 2 true true
      rfl rfl rfl
  exact ⟨by rfl, by rfl, h.2.2 0 (by norm_num), h.2.2 1 (by norm_num)⟩

/-- The `d + (m != 0 ? 1 : 0)` extent computation is the ceiling of the exact
rational quotient. -/
theorem ceil_div_eq_div_add_ite (a b : Int) (ha : 0 ≤ a) (hb : 0 < b) :
    (⌈(a : ℚ) / (b : ℚ)⌉ : Int) = a / b + (if a % b ≠ 0 then 1 else 0) := by
  have hb0 : (b : ℚ) ≠ 0 := by exact_mod_cast hb.ne'
  have hbq : (0 : ℚ) < (b : ℚ) := by exact_mod_cast hb
  have hmod := Int.emod_nonneg a hb.ne'
  have hmodlt := Int.emod_lt_of_pos a hb
  have hdiv := Int.ediv_add_emod a b
  have haq : (a : ℚ) = (b : ℚ) * ((a / b : Int) : ℚ) + ((a % b : Int) : ℚ) := by
    exact_mod_cast hdiv.symm
  have key : (a : ℚ) / (b : ℚ) = ((a / b : Int) : ℚ) + ((a % b : Int) : ℚ) / (b : ℚ) := by
    rw [haq]
    field_simp
    ring
  by_cases hm : a % b = 0
  · simp only [hm, ne_eq, not_true_eq_false, if_false, add_zero]
    rw [key, hm]
    push_cast
    rw [zero_div, add_zero, Int.ceil_intCast]
  · simp only [hm, ne_eq, not_false_eq_true, if_true]
    have hr0 : 0 < a % b := lt_of_le_of_ne hmod (Ne.symm hm)
    rw [Int.ceil_eq_iff]
    have h1 : (0 : ℚ) < ((a % b : Int) : ℚ) / (b : ℚ) :=
      div_pos (by exact_mod_cast hr0) hbq
    have h2 : ((a % b : Int) : ℚ) / (b : ℚ) < 1 :=
      (div_lt_one hbq).mpr (by exact_mod_cast hmodlt)
    rw [key]
    push_cast
    constructor <;> linarith

/-- Clamping facts for the positive-step normalization: both bounds land in
`[0, len]` and travel forward. -/
theorem regularize_rangeslice_pos_clamp (start stop len : Int) (hs hp : Bool)
    (hlen : 0 ≤ len) :
    0 ≤ (regularize_rangeslice start stop true hs hp len).1 ∧
    (regularize_rangeslice start stop true hs hp len).1 ≤ len ∧
    0 ≤ (regularize_rangeslice start stop true hs hp len).2 ∧
    (regularize_rangeslice start stop true hs hp len).2 ≤ len ∧
    (regularize_rangeslice start stop true hs hp len).1 ≤
      (regularize_rangeslice start stop true hs hp len).2 := by
  simp only [regularize_rangeslice]
  rcases hs <;> rcases hp <;>
    simp only [Bool.not_true, Bool.not_false, if_true, if_false,
               Bool.false_eq_true, Bool.true_eq_false, ite_true, ite_false] <;>
    split_ifs <;> omega

/-- Clamping facts for the negative-step normalization: both bounds land in
`[-1, len - 1]` and travel backward. -/
theorem regularize_rangeslice_neg_clamp (start stop len : Int) (hs hp : Bool)
    (hlen : 0 ≤ len) :
    -1 ≤ (regularize_rangeslice start stop false hs hp len).1 ∧
    (regularize_rangeslice start stop false hs hp len).1 ≤ len - 1 ∧
    -1 ≤ (regularize_rangeslice start stop false hs hp len).2 ∧
    (regularize_rangeslice start stop false hs hp len).2 ≤ len - 1 ∧
    (regularize_rangeslice start stop false hs hp len).2 ≤
      (regularize_rangeslice start stop false hs hp len).1 := by
  simp only [regularize_rangeslice]
  rcases hs <;> rcases hp <;>
    simp only [Bool.not_true, Bool.not_false, if_true, if_false,
               Bool.false_eq_true, Bool.true_eq_false, ite_true, ite_false] <;>
    split_ifs <;> omega

/-- C4: a `Range` item on the by-strides fast path, applied to the dimension
of extent `shape_[1] = s1`: the bounds are normalized by the sign-aware,
extent-clamped `regularize_rangeslice`; the produced extent is
`⌈|stop − start| / |step|⌉`; the produced stride is the source dimension's
stride `t1` multiplied by the step; and the view is rebased at
`byteoffset + start·t1` with no buffer copy. -/
theorem getitem_bystrides_range_spec (v : NumpyArray) (s0 s1 t0 t1 : Int)
    (rs ts : List Int) (len start stop step : Int) (step' : Int) (sb : Int × Int)
    (hs : v.shape = s0 :: s1 :: rs) (ht : v.strides = t0 :: t1 :: ts)
    (hE : 0 ≤ s1)
    (hstep' : step' = (if step = sliceNone then 1 else step))
    (hsb : sb = regularize_rangeslice start stop (decide (step' > 0))
                  (start ≠ sliceNone) (stop ≠ sliceNone) s1)
    (hnz : step' ≠ 0) :
    v.getitem_bystrides [.range start stop step] len =
      .ok { v with
            shape := len :: (⌈((|sb.1 - sb.2| : Int) : ℚ) / ((|step'| : Int) : ℚ)⌉ : Int) :: rs,
            strides := t0 :: t1 * step' :: ts,
            byteoffset := v.byteoffset + sb.1 * t1 } ∧
    (0 < step' → 0 ≤ sb.1 ∧ sb.1 ≤ s1 ∧ 0 ≤ sb.2 ∧ sb.2 ≤ s1 ∧ sb.1 ≤ sb.2) ∧
    (step' < 0 → -1 ≤ sb.1 ∧ sb.1 ≤ s1 - 1 ∧ -1 ≤ sb.2 ∧ sb.2 ≤ s1 - 1 ∧
      sb.2 ≤ sb.1) := by
  have hceil : (⌈((|sb.1 - sb.2| : Int) : ℚ) / ((|step'| : Int) : ℚ)⌉ : Int) =
      |sb.1 - sb.2| / |step'| + (if |sb.1 - sb.2| % |step'| ≠ 0 then 1 else 0) :=
    ceil_div_eq_div_add_ite _ _ (abs_nonneg _) (abs_pos.mpr hnz)
  refine ⟨?_, ?_, ?_⟩
  · simp only [NumpyArray.getitem_bystrides]
    rw [if_neg (by simp [NumpyArray.ndim, hs]; omega)]
    simp only [hs, ht, List.headI, List.getD_cons_succ, List.getD_cons_zero,
               flatten_shape, flatten_strides, List.tail_cons]
    rw [← hstep', ← hsb, hceil]
  · intro hpos
    rw [hsb, show decide (step' > 0) = true by simp [hpos]]
    exact regularize_rangeslice_pos_clamp start stop s1 _ _ hE
  · intro hneg
    rw [hsb, show decide (step' > 0) = false by simp; omega]
    exact regularize_rangeslice_neg_clamp start stop s1 _ _ hE

/-- Witness for C4: slicing the 6-extent dimension with `Range(4, 1, -2)`
keeps bytes `4` and `2` — extent `⌈3/2⌉ = 2`, stride `1·(−2) = −2`, rebase at
byte 4, clamps in `[-1, 5]`. -/
theorem getitem_bystrides_range_spec_witness :
    (⟨[1, 2, 3, 4, 5, 6], [1, 6], [6, 1], 0, 1, .int8, []⟩ : NumpyArray).getitem_bystrides
        [.range 4 1 (-2)] 1 =
      .ok ⟨[1, 2, 3, 4, 5, 6], [1, 2], [6, -2], 4, 1, .int8, []⟩ ∧
    (-1 ≤ (4 : Int) ∧ (4 : Int) ≤ 6 - 1 ∧ -1 ≤ (1 : Int) ∧ (1 : Int) ≤ 6 - 1 ∧
      (1 : Int) ≤ 4) := by
  have h := getitem_bystrides_range_spec
      (⟨[1, 2, 3, 4, 5, 6], [1, 6], [6, 1], 0, 1, .int8, []⟩ : NumpyArray)
      1 6 6 1 [] [] 1 4 1 (-2) (-2) (4, 1) rfl rfl (by norm_num) (by rfl)
      (by rfl) (by norm_num)
  have hc : (⌈((|((4, 1) : Int × Int).1 - ((4, 1) : Int × Int).2| : Int) : ℚ) /
      ((|(-2 : Int)| : Int) : ℚ)⌉ : Int) = 2 := by
    rw [ceil_div_eq_div_add_ite _ _ (by norm_num) (by norm_num)]
    decide
  refine ⟨?_, h.2.2 (by norm_num)⟩
  rw [h.1, hc]
  rfl

/-- The extent product is `List.prod`. -/
theorem listProd_eq_prod (xs : List Int) : listProd xs = xs.prod := rfl

/-- Unfolding the extent product over a cons. -/
theorem listProd_cons (a : Int) (l : List Int) : listProd (a :: l) = a * listProd l := rfl

/-- The extent product over nil. -/
theorem listProd_nil : listProd [] = 1 := rfl

/-- Products of nonnegative extents are nonnegative. -/
theorem listProd_nonneg {xs : List Int} (h : ∀ x ∈ xs, 0 ≤ x) : 0 ≤ listProd xs := by
  induction xs with
  | nil => exact zero_le_one
  | cons a t ih =>
      exact mul_nonneg (h a (by simp)) (ih fun x hx => h x (by simp [hx]))

/-- The packed strides vector has one entry per dimension. -/
theorem canonStrides_length (m : Int) (xs : List Int) :
    (canonStrides m xs).length = xs.length := by
  induction xs with
  | nil => rfl
  | cons a t ih => simp [canonStrides, ih]

/-- The contiguity scan distributes over concatenation, threading the product
of the already-consumed extents into the accumulator. -/
theorem contigFrom_append (L M : List (Int × Int)) (x : Int) :
    contigFrom x (L ++ M) =
      (contigFrom x L && contigFrom (x * listProd (L.map Prod.fst)) M) := by
  induction L generalizing x with
  | nil => simp [contigFrom, listProd]
  | cons p t ih =>
      rcases p with ⟨e, s⟩
      simp only [List.cons_append, contigFrom, List.map_cons, listProd_cons,
                 List.append_eq]
      rw [ih (x * e), Bool.and_assoc,
          show x * (e * listProd (t.map Prod.fst)) = x * e * listProd (t.map Prod.fst)
            by ring]

/-- The innermost-to-outermost stride scan accepts exactly the packed
row-major strides. -/
theorem contig_rev_iff : ∀ (shape strides : List Int) (x : Int),
    shape.length = strides.length →
    (contigFrom x ((shape.zip strides).reverse) = true ↔
      strides = canonStrides x shape) := by
  intro shape
  induction shape with
  | nil =>
      intro strides x h
      rw [List.length_nil] at h
      rw [List.length_eq_zero.mp h.symm]
      simp [contigFrom, canonStrides]
  | cons e es ih =>
      intro strides x h
      rcases strides with _ | ⟨s, ss⟩
      · simp at h
      · simp only [List.length_cons, Nat.add_right_cancel_iff] at h
        rw [List.zip_cons_cons, List.reverse_cons, contigFrom_append,
            Bool.and_eq_true]
        have hprod : listProd ((es.zip ss).reverse.map Prod.fst) = listProd es := by
          rw [List.map_reverse, List.map_fst_zip es ss (le_of_eq h),
              listProd_eq_prod, listProd_eq_prod, List.prod_reverse]
        rw [hprod, ih ss x h]
        simp only [contigFrom, Bool.and_true, beq_iff_eq, canonStrides,
                   List.cons.injEq]
        constructor
        · rintro ⟨h1, h2⟩
          exact ⟨h2.symm, h1⟩
        · rintro ⟨h1, h2⟩
          exact ⟨h2, h1.symm⟩

/-- `iscontiguous` holds exactly for the packed row-major strides. -/
theorem iscontiguous_iff_canon (v : NumpyArray)
    (h : v.shape.length = v.strides.length) :
    v.iscontiguous = true ↔ v.strides = canonStrides v.itemsize v.shape :=
  contig_rev_iff v.shape v.strides v.itemsize h

/-- A byte-block read has the requested length. -/
theorem readBytes_length (buf : List Nat) (pos n : Int) :
    (readBytes buf pos n).length = n.toNat := by
  simp [readBytes]

/-- Reading a single byte of a byte-block read. -/
theorem readBytes_getD (buf : List Nat) (pos n : Int) (j : Nat) (hj : j < n.toNat) :
    (readBytes buf pos n).getD j 0 = byteAt buf (pos + (j : Int)) := by
  unfold readBytes
  rw [List.getD_eq_getElem _ _ (by simpa using hj), List.getElem_map,
      List.getElem_range]

/-- A byte-block read splits at any interior point. -/
theorem readBytes_split (buf : List Nat) (pos : Int) (x y : Int)
    (hx : 0 ≤ x) (hy : 0 ≤ y) :
    readBytes buf pos (x + y) = readBytes buf pos x ++ readBytes buf (pos + x) y := by
  obtain ⟨nx, rfl⟩ := Int.eq_ofNat_of_zero_le hx
  obtain ⟨ny, rfl⟩ := Int.eq_ofNat_of_zero_le hy
  unfold readBytes
  rw [show ((nx : Int) + (ny : Int)).toNat = nx + ny by omega,
      show ((nx : Int)).toNat = nx by omega, show ((ny : Int)).toNat = ny by omega,
      List.range_add, List.map_append, List.map_map]
  congr 1
  apply List.map_congr_left
  intro j hj
  simp only [Function.comp_apply]
  congr 1
  push_cast
  ring

/-- Equal-size consecutive block reads concatenate to one big read. -/
theorem readBytes_blocks (buf : List Nat) (off : Int) (n : Nat) (c : Int)
    (hc : 0 ≤ c) :
    (List.range n).flatMap (fun (i : Nat) => readBytes buf (off + (i : Int) * c) c) =
      readBytes buf off ((n : Int) * c) := by
  induction n with
  | zero => simp [readBytes]
  | succ k ih =>
      rw [List.range_succ, List.flatMap_append, ih,
          show ((k + 1 : Nat) : Int) * c = (k : Int) * c + c by push_cast; ring,
          readBytes_split buf off _ c (mul_nonneg (by positivity) hc) hc]
      simp [readBytes]

/-- A gather over no dimensions reads one item. -/
theorem gatherAll_nil (buf : List Nat) (off m : Int) :
    gatherAll buf off m [] = readBytes buf off m := by
  simp [gatherAll, positions]

/-- A gather over a leading dimension is the concatenation of the gathers of
its slices. -/
theorem gatherAll_cons (buf : List Nat) (off m : Int) (e s : Int)
    (dims : List (Int × Int)) :
    gatherAll buf off m ((e, s) :: dims) =
      (List.range e.toNat).flatMap
        (fun (i : Nat) => gatherAll buf (off + (i : Int) * s) m dims) := by
  simp only [gatherAll,
             show positions ((e, s) :: dims) =
               (List.range e.toNat).flatMap
                 (fun (i : Nat) => (positions dims).map (fun d => (i : Int) * s + d))
               from rfl]
  rw [List.flatMap_assoc]
  refine congrArg _ (funext fun i => ?_)
  rw [List.flatMap_map]
  refine congrArg _ (funext fun d => ?_)
  congr 1
  ring

/-- Over the packed row-major strides, the row-major gather of a block is one
single consecutive read of the whole block. -/
theorem gatherAll_contiguous (shape : List Int) (buf : List Nat) (off m : Int)
    (hm : 0 ≤ m) (hsh : ∀ x ∈ shape, 0 ≤ x) :
    gatherAll buf off m (shape.zip (canonStrides m shape)) =
      readBytes buf off (m * listProd shape) := by
  induction shape generalizing off with
  | nil =>
      rw [show (([] : List Int).zip (canonStrides m [])) = [] from rfl, gatherAll_nil]
      norm_num [listProd_nil]
  | cons e es ih =>
      have hes : ∀ x ∈ es, 0 ≤ x := fun x hx => hsh x (by simp [hx])
      have hP : 0 ≤ listProd es := listProd_nonneg hes
      rw [show canonStrides m (e :: es) = m * listProd es :: canonStrides m es
            from rfl,
          List.zip_cons_cons, gatherAll_cons,
          congrArg ((List.range e.toNat).flatMap)
            (funext fun (i : Nat) => ih (off + (i : Int) * (m * listProd es)) hes),
          readBytes_blocks buf off e.toNat (m * listProd es) (mul_nonneg hm hP),
          Int.toNat_of_nonneg (hsh e (by simp)), listProd_cons]
      congr 1
      ring

/-- The structural contract of the packing recursion: with fuel equal to the
dimensionality, `contiguous_next_go` returns the same view rebased at byte
offset 0 onto a freshly gathered buffer with the packed row-major strides, the
buffer holding, for each byte-position-map entry, the row-major gather of the
remaining dimensions. -/
theorem contiguous_next_go_spec :
    ∀ (fuel : Nat) (v : NumpyArray) (bp : List Int),
      fuel = v.shape.length → v.shape ≠ [] →
      v.shape.length = v.strides.length → (∀ x ∈ v.shape, 0 ≤ x) →
      0 ≤ v.itemsize →
      contiguous_next_go fuel v bp =
        { v with
          buffer := bp.flatMap (fun pos =>
            gatherAll v.buffer (v.byteoffset + pos) v.itemsize
              (v.shape.tail.zip v.strides.tail)),
          strides := canonStrides v.itemsize v.shape,
          byteoffset := 0 } := by
  intro fuel
  induction fuel with
  | zero =>
      intro v bp hflen hne
      exact absurd (List.length_eq_zero.mp hflen.symm) hne
  | succ n ih =>
      intro v bp hflen hne hlen hsh hm
      rcases hs : v.shape with _ | ⟨e, es⟩
      · exact absurd hs hne
      rcases ht : v.strides with _ | ⟨s, ss⟩
      · rw [hs, ht] at hlen
        simp at hlen
      have hlen' : es.length = ss.length := by
        rw [hs, ht] at hlen
        simpa using hlen
      have hes : ∀ x ∈ es, 0 ≤ x := fun x hx => hsh x (by simp [hs, hx])
      have he : 0 ≤ e := hsh e (by simp [hs])
      by_cases hc : v.iscontiguous
      · -- already contiguous: whole rows are gathered in one read each
        have hcanon : s :: ss = canonStrides v.itemsize (e :: es) := by
          rw [← hs, ← ht]
          exact (iscontiguous_iff_canon v hlen).mp hc
        have hpair : s = v.itemsize * listProd es ∧ ss = canonStrides v.itemsize es := by
          have h2 := hcanon
          rw [show canonStrides v.itemsize (e :: es) =
                v.itemsize * listProd es :: canonStrides v.itemsize es from rfl,
              List.cons.injEq] at h2
          exact h2
        rw [contiguous_next_go.eq_def, if_pos hc]
        simp only [hs, ht, List.tail_cons, List.headI, contiguous_copy]
        congr 1
        refine congrArg _ (funext fun pos => ?_)
        rw [hpair.2, gatherAll_contiguous es _ _ _ hm hes, ← hpair.1]
      · rw [contiguous_next_go.eq_def, if_neg hc]
        rcases hes' : es with _ | ⟨b, rest⟩
        · -- one dimension, not contiguous: gather single items
          simp only [hs, hes', ht, List.tail_cons, List.zip_nil_left, gatherAll_nil,
                     contiguous_copy, canonStrides, listProd_nil, mul_one]
        · -- at least two dimensions: flatten, recurse, rebuild the outer stride
          rcases hss : ss with _ | ⟨s1, ss'⟩
          · rw [hss, hes'] at hlen'
            simp at hlen'
          have h1 : n = (((e * b) :: rest : List Int)).length := by
            rw [hs, hes'] at hflen
            simp only [List.length_cons] at hflen ⊢
            omega
          have h3 : (((e * b) :: rest : List Int)).length =
              ((s1 :: ss' : List Int)).length := by
            rw [hes', hss] at hlen'
            simpa using hlen'
          have h4 : ∀ x ∈ ((e * b) :: rest : List Int), 0 ≤ x := by
            intro x hx
            rcases List.mem_cons.mp hx with hx | hx
            · subst hx
              exact mul_nonneg he (hes b (by simp [hes']))
            · exact hes x (by simp [hes', hx])
          have hout := ih
            ⟨v.buffer, (e * b) :: rest, s1 :: ss', v.byteoffset, v.itemsize,
             v.dtype, v.parameters⟩
            (contiguous_next_kernel bp b s1) h1 (by simp) h3 h4 hm
          simp only [hs, hes', ht, hss, flatten_shape, flatten_strides,
                     List.getD_cons_succ, List.getD_cons_zero, List.tail_cons]
          rw [hout]
          simp only [List.tail_cons]
          congr 1
          · -- the refined byte-position map gathers the same bytes
            unfold contiguous_next_kernel
            rw [List.flatMap_assoc]
            refine congrArg _ (funext fun pos => ?_)
            rw [List.flatMap_map, List.zip_cons_cons, gatherAll_cons]
            refine congrArg _ (funext fun j => ?_)
            congr 1
            ring
          · -- the rebuilt outer stride completes the packed strides
            rw [show canonStrides v.itemsize ((e * b) :: rest) =
                  v.itemsize * listProd rest :: canonStrides v.itemsize rest from rfl,
                show canonStrides v.itemsize (e :: b :: rest) =
                  v.itemsize * listProd (b :: rest) ::
                    v.itemsize * listProd rest :: canonStrides v.itemsize rest from rfl]
            simp only [List.headI, listProd_cons, List.cons.injEq]
            exact ⟨by ring, trivial⟩

/-- `contiguous` on a non-contiguous view: the packed view gathers every
element of the strided block in row-major order into a fresh buffer at byte
offset 0, with the packed row-major strides. -/
theorem contiguous_spec (v : NumpyArray) (hc : v.iscontiguous = false)
    (hlen : v.shape.length = v.strides.length) (hsh : ∀ x ∈ v.shape, 0 ≤ x)
    (hm : 0 ≤ v.itemsize) :
    v.contiguous =
      { v with
        buffer := gatherAll v.buffer v.byteoffset v.itemsize
                    (v.shape.zip v.strides),
        strides := canonStrides v.itemsize v.shape,
        byteoffset := 0 } := by
  have hne : v.shape ≠ [] := by
    intro h
    rw [iscontiguous_of_shape_nil v h] at hc
    cases hc
  rcases hs : v.shape with _ | ⟨e, es⟩
  · exact absurd hs hne
  rcases ht : v.strides with _ | ⟨s, ss⟩
  · rw [hs, ht] at hlen
    simp at hlen
  rw [NumpyArray.contiguous, if_neg (by simp [hc]), NumpyArray.contiguous_next,
      contiguous_next_go_spec v.shape.length v _ rfl hne hlen hsh hm]
  have hmap : contiguous_init v.shape.headI v.strides.headI =
      (List.range e.toNat).map (fun (i : Nat) => (i : Int) * s) := by
    rw [contiguous_init, hs, ht]
    rfl
  congr 1
  · rw [hmap, List.flatMap_map, hs, ht, List.zip_cons_cons, gatherAll_cons,
        List.tail_cons, List.tail_cons]
  · rw [hs]

/-- Valid multi-indices force every extent to be positive. -/
theorem validIndex_extents_pos :
    ∀ (ix shape : List Int), validIndex ix shape → ∀ x ∈ shape, 0 < x := by
  intro ix
  induction ix with
  | nil =>
      intro shape hv x hx
      rcases shape with _ | ⟨e, es⟩
      · cases hx
      · cases hv
  | cons i is ih =>
      intro shape hv x hx
      rcases shape with _ | ⟨e, es⟩
      · cases hx
      · rcases hv with ⟨h0, h1, h2⟩
        rcases List.mem_cons.mp hx with hx | hx
        · exact hx ▸ lt_of_le_of_lt h0 h1
        · exact ih es h2 x hx

/-- The byte delta against the packed strides is the item size times the
row-major flat position. -/
theorem strideSum_canon :
    ∀ (ix shape : List Int) (m : Int),
      strideSum ix (canonStrides m shape) = m * flatIndex ix shape := by
  intro ix
  induction ix with
  | nil =>
      intro shape m
      rcases shape with _ | ⟨e, es⟩ <;> simp [strideSum, flatIndex, canonStrides]
  | cons i is ih =>
      intro shape m
      rcases shape with _ | ⟨e, es⟩
      · simp [strideSum, flatIndex, canonStrides]
      · rw [show canonStrides m (e :: es) = m * listProd es :: canonStrides m es
              from rfl,
            show strideSum (i :: is) (m * listProd es :: canonStrides m es) =
              i * (m * listProd es) + strideSum is (canonStrides m es) from rfl,
            show flatIndex (i :: is) (e :: es) =
              i * listProd es + flatIndex is es from rfl,
            ih es m]
        ring

/-- A valid multi-index has a row-major flat position inside the block. -/
theorem flatIndex_bounds :
    ∀ (ix shape : List Int), validIndex ix shape →
      0 ≤ flatIndex ix shape ∧ flatIndex ix shape < listProd shape := by
  intro ix
  induction ix with
  | nil =>
      intro shape hv
      rcases shape with _ | ⟨e, es⟩
      · simp [flatIndex, listProd_nil]
      · cases hv
  | cons i is ih =>
      intro shape hv
      rcases shape with _ | ⟨e, es⟩
      · cases hv
      · rcases hv with ⟨h0, h1, h2⟩
        obtain ⟨hf0, hf1⟩ := ih es h2
        have hP : 0 < listProd es :=
          lt_of_le_of_lt hf0 hf1
        rw [show flatIndex (i :: is) (e :: es) =
              i * listProd es + flatIndex is es from rfl, listProd_cons]
        constructor
        · positivity
        · have : i * listProd es + flatIndex is es < (i + 1) * listProd es := by
            rw [add_mul, one_mul]
            omega
          have h2' : (i + 1) * listProd es ≤ e * listProd es :=
            mul_le_mul_of_nonneg_right (by omega) (le_of_lt hP)
          omega

/-- Summing a constant over a list multiplies it by the length. -/
theorem sum_map_const {α : Type} (l : List α) (c : Nat) :
    (l.map (fun _ => c)).sum = l.length * c := by
  simp [List.map_const', List.sum_replicate, smul_eq_mul]

/-- The number of positions of a strided block is the product of its extents. -/
theorem positions_length :
    ∀ dims : List (Int × Int),
      (positions dims).length = (dims.map (fun p => p.1.toNat)).prod := by
  intro dims
  induction dims with
  | nil => rfl
  | cons p rest ih =>
      rcases p with ⟨e, s⟩
      rw [show positions ((e, s) :: rest) =
            (List.range e.toNat).flatMap
              (fun (i : Nat) => (positions rest).map (fun d => (i : Int) * s + d))
            from rfl,
          List.length_flatMap]
      simp only [Function.comp_def, List.length_map, ih]
      rw [sum_map_const, List.length_range, List.map_cons, List.prod_cons]

/-- A gather's total size is the number of positions times the item size. -/
theorem gatherAll_length (buf : List Nat) (off m : Int) (dims : List (Int × Int)) :
    (gatherAll buf off m dims).length = (positions dims).length * m.toNat := by
  rw [gatherAll, List.length_flatMap]
  simp only [Function.comp_def, readBytes_length]
  rw [sum_map_const]

/-- `toNat` distributes over a product of nonnegative integers. -/
theorem toNat_mul_of_nonneg (a b : Int) (ha : 0 ≤ a) (hb : 0 ≤ b) :
    (a * b).toNat = a.toNat * b.toNat := by
  obtain ⟨na, rfl⟩ := Int.eq_ofNat_of_zero_le ha
  obtain ⟨nb, rfl⟩ := Int.eq_ofNat_of_zero_le hb
  rfl

/-- Over nonnegative extents, the integer product's `toNat` is the product of
the `toNat`s. -/
theorem listProd_toNat :
    ∀ xs : List Int, (∀ x ∈ xs, 0 ≤ x) →
      (listProd xs).toNat = (xs.map Int.toNat).prod := by
  intro xs
  induction xs with
  | nil => intro h; rfl
  | cons e es ih =>
      intro h
      have he : 0 ≤ e := h e (by simp)
      have hes : ∀ x ∈ es, 0 ≤ x := fun x hx => h x (by simp [hx])
      have hP : 0 ≤ listProd es := listProd_nonneg hes
      rw [listProd_cons, toNat_mul_of_nonneg e _ he hP, ih hes,
          List.map_cons, List.prod_cons]

/-- Indexing into a concatenation of equal-length blocks: position
`blk * k + r` with `r < blk` reads entry `r` of block `k`. -/
theorem flatMap_getD_uniform :
    ∀ {α : Type} (l : List α) (f : α → List Nat) (blk : Nat),
      (∀ x ∈ l, (f x).length = blk) →
      ∀ (k : Nat) (hk : k < l.length) (r : Nat), r < blk →
        (l.flatMap f).getD (blk * k + r) 0 = (f (l.get ⟨k, hk⟩)).getD r 0 := by
  intro α l
  induction l with
  | nil =>
      intro f blk hlen k hk
      exact absurd hk (by simp)
  | cons a t ih =>
      intro f blk hlen k hk r hr
      rw [List.flatMap_cons]
      have ha : (f a).length = blk := hlen a (by simp)
      rcases k with _ | k
      · rw [Nat.mul_zero, Nat.zero_add,
            List.getD_append _ _ 0 r (by rw [ha]; exact hr)]
        rfl
      · rw [List.getD_append_right _ _ 0 _ (by rw [ha, Nat.mul_succ]; omega)]
        have hidx : blk * (k + 1) + r - (f a).length = blk * k + r := by
          rw [ha, Nat.mul_succ]
          omega
        rw [hidx]
        exact ih f blk (fun x hx => hlen x (by simp [hx])) k (by simpa using hk) r hr

/-- One byte of a row-major gather: byte `j` of the item at flat position
`flatIndex ix shape` of the gathered buffer is the source byte at
`off + strideSum ix strides + j`. -/
theorem gatherAll_getD :
    ∀ (shape strides ix : List Int) (buf : List Nat) (off m : Int),
      shape.length = strides.length → validIndex ix shape → 0 ≤ m →
      ∀ j : Nat, j < m.toNat →
        (gatherAll buf off m (shape.zip strides)).getD
            (m.toNat * (flatIndex ix shape).toNat + j) 0 =
          byteAt buf (off + strideSum ix strides + (j : Int)) := by
  intro shape
  induction shape with
  | nil =>
      intro strides ix buf off m hlen hv hm j hj
      rcases strides with _ | ⟨s, ss⟩
      · rcases ix with _ | ⟨i, is⟩
        · rw [show (([] : List Int).zip ([] : List Int)) = [] from rfl,
              gatherAll_nil,
              show flatIndex ([] : List Int) [] = 0 from rfl,
              show strideSum ([] : List Int) [] = 0 from rfl, add_zero,
              show ((0 : Int)).toNat = 0 from rfl, Nat.mul_zero, Nat.zero_add]
          exact readBytes_getD buf off m j hj
        · cases hv
      · simp at hlen
  | cons e es ih =>
      intro strides ix buf off m hlen hv hm j hj
      rcases strides with _ | ⟨s, ss⟩
      · simp at hlen
      rcases ix with _ | ⟨i, is⟩
      · cases hv
      rcases hv with ⟨hi0, hie, hvrest⟩
      have hlen' : es.length = ss.length := by simpa using hlen
      have hbounds := flatIndex_bounds is es hvrest
      have hpos := validIndex_extents_pos is es hvrest
      have hes_nonneg : ∀ x ∈ es, 0 ≤ x := fun x hx => le_of_lt (hpos x hx)
      have hPpos : 0 < listProd es := lt_of_le_of_lt hbounds.1 hbounds.2
      rw [List.zip_cons_cons, gatherAll_cons]
      have hblk : ∀ a ∈ List.range e.toNat,
          (gatherAll buf (off + (a : Int) * s) m (es.zip ss)).length =
            (listProd es).toNat * m.toNat := by
        intro a _
        rw [gatherAll_length, positions_length,
            show ((es.zip ss).map (fun p => p.1.toNat)) =
              ((es.zip ss).map Prod.fst).map Int.toNat by
              rw [List.map_map]; rfl,
            List.map_fst_zip _ _ (le_of_eq hlen'), ← listProd_toNat es hes_nonneg]
      have hk : i.toNat < (List.range e.toNat).length := by
        rw [List.length_range]
        omega
      have harith : m.toNat * (flatIndex (i :: is) (e :: es)).toNat + j =
          ((listProd es).toNat * m.toNat) * i.toNat +
            (m.toNat * (flatIndex is es).toNat + j) := by
        rw [show flatIndex (i :: is) (e :: es) = i * listProd es + flatIndex is es
              from rfl]
        have h1 : (i * listProd es + flatIndex is es).toNat =
            i.toNat * (listProd es).toNat + (flatIndex is es).toNat := by
          rw [← toNat_mul_of_nonneg i _ hi0 (le_of_lt hPpos)]
          have hn : 0 ≤ i * listProd es := mul_nonneg hi0 (le_of_lt hPpos)
          have hf0 := hbounds.1
          omega
        rw [h1]
        ring
      have hr : m.toNat * (flatIndex is es).toNat + j <
          (listProd es).toNat * m.toNat := by
        have hF : (flatIndex is es).toNat < (listProd es).toNat := by omega
        calc m.toNat * (flatIndex is es).toNat + j
            < m.toNat * (flatIndex is es).toNat + m.toNat := by omega
          _ = m.toNat * ((flatIndex is es).toNat + 1) := by ring
          _ ≤ m.toNat * (listProd es).toNat := Nat.mul_le_mul_left _ (by omega)
          _ = (listProd es).toNat * m.toNat := Nat.mul_comm _ _
      rw [harith,
          flatMap_getD_uniform (List.range e.toNat)
            (fun (a : Nat) => gatherAll buf (off + (a : Int) * s) m (es.zip ss))
            ((listProd es).toNat * m.toNat) hblk i.toNat hk
            (m.toNat * (flatIndex is es).toNat + j) hr,
          List.get_range, Int.toNat_of_nonneg hi0,
          ih ss is buf (off + i * s) m hlen' hvrest hm j hj,
          show strideSum (i :: is) (s :: ss) = i * s + strideSum is ss from rfl]
      congr 1
      ring

/-- Reading an item of the row-major gather at its flat position equals
reading it through the original strides. -/
theorem gatherAll_read (shape strides ix : List Int) (buf : List Nat)
    (off m : Int) (hlen : shape.length = strides.length)
    (hv : validIndex ix shape) (hm : 0 ≤ m) :
    readBytes (gatherAll buf off m (shape.zip strides))
        (m * flatIndex ix shape) m =
      readBytes buf (off + strideSum ix strides) m := by
  unfold readBytes
  apply List.map_congr_left
  intro j hj
  rw [List.mem_range] at hj
  have hflat := flatIndex_bounds ix shape hv
  have hpos : 0 ≤ m * flatIndex ix shape + (j : Int) :=
    add_nonneg (mul_nonneg hm hflat.1) (Int.natCast_nonneg j)
  rw [show byteAt (gatherAll buf off m (shape.zip strides))
        (m * flatIndex ix shape + (j : Int)) =
      (gatherAll buf off m (shape.zip strides)).getD
        (m * flatIndex ix shape + (j : Int)).toNat 0 from by
      rw [byteAt, if_pos hpos],
    show (m * flatIndex ix shape + (j : Int)).toNat =
        m.toNat * (flatIndex ix shape).toNat + j from by
      rw [← toNat_mul_of_nonneg m _ hm hflat.1]
      have hn : 0 ≤ m * flatIndex ix shape := mul_nonneg hm hflat.1
      omega,
    gatherAll_getD shape strides ix buf off m hlen hv hm j hj]

/-- `contiguous` is the identity on a contiguous view. -/
theorem contiguous_of_iscontiguous (w : NumpyArray) (h : w.iscontiguous = true) :
    w.contiguous = w := by
  rw [NumpyArray.contiguous, if_pos h]

/-- C3: For every well-formed view (shape and strides of equal rank,
nonnegative extents and item size), normalizing to contiguous twice gives a
result identical to normalizing once — `contiguous` is idempotent — and
reading any valid element through the normalized view yields the same bytes
as reading that element through the original view. -/
theorem contiguity_round_trip (v : NumpyArray)
    (hlen : v.shape.length = v.strides.length)
    (hsh : ∀ x ∈ v.shape, 0 ≤ x) (hm : 0 ≤ v.itemsize) :
    v.contiguous.contiguous = v.contiguous ∧
    ∀ ix : List Int, validIndex ix v.shape →
      v.contiguous.getelement ix = v.getelement ix := by
  by_cases hc : v.iscontiguous = true
  · have hid : v.contiguous = v := contiguous_of_iscontiguous v hc
    rw [hid]
    exact ⟨hid, fun ix _ => rfl⟩
  · have hc' : v.iscontiguous = false := by simpa using hc
    have hspec := contiguous_spec v hc' hlen hsh hm
    have hcontig2 : v.contiguous.iscontiguous = true := by
      rw [hspec]
      refine (iscontiguous_iff_canon _ ?_).mpr rfl
      show v.shape.length = (canonStrides v.itemsize v.shape).length
      rw [canonStrides_length]
    refine ⟨contiguous_of_iscontiguous _ hcontig2, ?_⟩
    intro ix hv
    have hget : v.contiguous.getelement ix =
        readBytes (gatherAll v.buffer v.byteoffset v.itemsize
            (v.shape.zip v.strides))
          (0 + strideSum ix (canonStrides v.itemsize v.shape)) v.itemsize := by
      rw [hspec]
      rfl
    rw [hget, zero_add, strideSum_canon ix v.shape v.itemsize,
        gatherAll_read v.shape v.strides ix v.buffer v.byteoffset v.itemsize
          hlen hv hm]
    rfl

/-- C3 witness: a concrete transposed (non-contiguous) 2×2 byte view; its
packed copy is a fixed point of `contiguous` and element (1,0) reads the same
byte through both. -/
theorem contiguity_round_trip_witness :
    ((⟨[1, 2, 3, 4], [2, 2], [1, 2], 0, 1, .int8, []⟩ :
        NumpyArray).contiguous.contiguous =
      (⟨[1, 2, 3, 4], [2, 2], [1, 2], 0, 1, .int8, []⟩ :
        NumpyArray).contiguous) ∧
    (⟨[1, 2, 3, 4], [2, 2], [1, 2], 0, 1, .int8, []⟩ :
        NumpyArray).contiguous.getelement [1, 0] =
      (⟨[1, 2, 3, 4], [2, 2], [1, 2], 0, 1, .int8, []⟩ :
        NumpyArray).getelement [1, 0] :=
  ⟨(contiguity_round_trip
      (⟨[1, 2, 3, 4], [2, 2], [1, 2], 0, 1, .int8, []⟩ : NumpyArray)
      rfl (by decide) (by decide)).1,
   (contiguity_round_trip
      (⟨[1, 2, 3, 4], [2, 2], [1, 2], 0, 1, .int8, []⟩ : NumpyArray)
      rfl (by decide) (by decide)).2 [1, 0] (by decide)⟩

end Awkward
